import Mathlib

/-!
Verification of the seed-cracking core of `mcseedcracker`.

The Rust sources are shallowly embedded as follows.

Machine integers: an `i64` that is only ever used with wrapping/bitwise
operations (the LCG states and the bit patterns manipulated by the search
drivers) is modeled as its two's-complement bit pattern, a `Nat` below `2^64`;
an `i64`/`i32` that is used with signed comparisons (the `JavaRandom` outputs,
item counts, weights) is modeled as a mathematical `Int` carrying the signed
value.  `wrapping_mul`/`wrapping_add` on patterns are `% 2^64`; casts between
the two views are made explicit (`pat64`, `toI32`, `wrap64`).

`f64`/`f32` quantities (the pillar match weights and the `luck` parameter) are
modeled as exact rationals `ℚ`; all the arithmetic the claims touch (halves,
small quotients, floors of `quality * luck` with integer `quality`) is exact
in binary floating point at the precision used by the code, so the rational
model is faithful for those claims.

Stateful code is embedded by explicit state passing: each `&mut self` method
of the PRNG becomes a function returning a pair `(result, new state)`.
Code paths that can hit a Rust `panic` are embedded in `Option`, with `none`
denoting the panic.
-/

/-- Two's-complement bit pattern (in `[0, 2^64)`) of an `i64` value. -/
def pat64 (x : Int) : Nat := (x % (2 ^ 64 : Int)).toNat

/-- Signed `i64` value of a bit pattern: wraps an integer into `[-2^63, 2^63)`. -/
def wrap64 (x : Int) : Int := (x + 2 ^ 63) % 2 ^ 64 - 2 ^ 63

/-- Rust `as i32` on an integer-valued expression: keep the low 32 bits,
interpreted as a signed value in `[-2^31, 2^31)`. -/
def toI32 (x : Int) : Int := (x + 2 ^ 31) % 2 ^ 32 - 2 ^ 31

/-! ## `src/lcg.rs` — `LinearCongruentialGenerator`

All fields hold `i64` bit patterns.  The Rust struct caches `is_pow_2` and
`trailing_zeros` at construction; both are pure functions of `modulus` and are
recomputed where used. -/

structure LCG where
  multiplier : Nat
  increment : Nat
  modulus : Nat
  deriving DecidableEq

/-- `LinearCongruentialGenerator::_mod`: for a power-of-two modulus, mask with
`modulus - 1`; otherwise reduce the `u64` view modulo the `u64` modulus. -/
def LCG.mod' (g : LCG) (x : Nat) : Nat :=
  if g.modulus &&& (g.modulus - 1) == 0 then x &&& (g.modulus - 1) else x % g.modulus

/-- `LinearCongruentialGenerator::next_seed`:
`multiplier.wrapping_mul(seed).wrapping_add(increment)` followed by `_mod`. -/
def LCG.next_seed (g : LCG) (seed : Nat) : Nat :=
  g.mod' ((g.multiplier * seed % 2 ^ 64 + g.increment) % 2 ^ 64)

/-- The squaring loop of `LinearCongruentialGenerator::combine`.  `k` is the
current (logically right-shifted) `u64` view of `steps`; `m`/`c` accumulate the
combined multiplier/increment, `im`/`ic` are the intermediate ones.  All
arithmetic is wrapping 64-bit arithmetic.  The Rust loop runs until `k == 0`;
since `k` starts below `2^64` and is logically shifted right once per
iteration, 64 iterations always suffice, which the structural fuel argument
makes explicit (the fuel-exhausted case is unreachable from `combine`). -/
def combineLoop : Nat → Nat → Nat → Nat → Nat → Nat → Nat × Nat
  | _, 0, m, c, _, _ => (m, c)
  | 0, _ + 1, m, c, _, _ => (m, c)
  | fuel + 1, k + 1, m, c, im, ic =>
    combineLoop fuel ((k + 1) >>> 1)
      (if (k + 1) &&& 1 != 0 then m * im % 2 ^ 64 else m)
      (if (k + 1) &&& 1 != 0 then (im * c % 2 ^ 64 + ic) % 2 ^ 64 else c)
      (im * im % 2 ^ 64)
      ((im + 1) % 2 ^ 64 * ic % 2 ^ 64)

/-- `LinearCongruentialGenerator::combine(steps)`: run the squaring loop on the
bit pattern of `steps` starting from the identity map `(1, 0)`, then `_mod` the
two results. -/
def LCG.combine (g : LCG) (steps : Int) : LCG :=
  { multiplier := g.mod' (combineLoop 64 (pat64 steps) 1 0 g.multiplier g.increment).1
    increment := g.mod' (combineLoop 64 (pat64 steps) 1 0 g.multiplier g.increment).2
    modulus := g.modulus }

/-- `JAVA_RANDOM = LinearCongruentialGenerator::new(0x5DEECE66D, 0xB, 1 << 48)`. -/
def JAVA_RANDOM : LCG :=
  { multiplier := 0x5DEECE66D, increment := 0xB, modulus := 1 <<< 48 }

/-- `JAVA_RANDOM_REV1 = JAVA_RANDOM.combine(-1)`. -/
def JAVA_RANDOM_REV1 : LCG := JAVA_RANDOM.combine (-1)

/-- `JAVA_RANDOM_REV2 = JAVA_RANDOM.combine(-2)`. -/
def JAVA_RANDOM_REV2 : LCG := JAVA_RANDOM.combine (-2)

/-! ## `src/random.rs` — `JavaRandom` -/

structure JavaRandom where
  seed : Nat
  deriving DecidableEq

/-- `JavaRandom::new`: `(seed ^ multiplier) & (modulus - 1)` on the `i64`
pattern of the caller's seed. -/
def JavaRandom.new (seed : Int) : JavaRandom :=
  ⟨(pat64 seed ^^^ JAVA_RANDOM.multiplier) &&& (JAVA_RANDOM.modulus - 1)⟩

/-- `JavaRandom::next_seed`: advance by one step of `JAVA_RANDOM` and return
the new internal seed. -/
def JavaRandom.nextSeed (r : JavaRandom) : Nat × JavaRandom :=
  (JAVA_RANDOM.next_seed r.seed, ⟨JAVA_RANDOM.next_seed r.seed⟩)

/-- `JavaRandom::next(bit_count)`: `(new_seed >> (48 - bit_count)) as i32`. -/
def JavaRandom.next (r : JavaRandom) (bitCount : Nat) : Int × JavaRandom :=
  (toI32 ((JAVA_RANDOM.next_seed r.seed >>> (48 - bitCount) : Nat) : Int),
   ⟨JAVA_RANDOM.next_seed r.seed⟩)

/-- `JavaRandom::next_int` is `next(32)`. -/
def JavaRandom.next_int (r : JavaRandom) : Int × JavaRandom := r.next 32

/-- `JavaRandom::next_long`: `(hi << 32).wrapping_add(lo)` for two successive
`next_int` results, each sign-extended to `i64`.  Since `|hi| ≤ 2^31`, the
shift `hi << 32` itself cannot overflow an `i64`, so only the addition wraps. -/
def JavaRandom.next_long (r : JavaRandom) : Int × JavaRandom :=
  (wrap64 ((r.next_int.1 * 2 ^ 32) + r.next_int.2.next_int.1), r.next_int.2.next_int.2)

/-- `JavaRandom::next_bool` is `next(1) != 0`. -/
def JavaRandom.next_bool (r : JavaRandom) : Bool × JavaRandom :=
  ((r.next 1).1 != 0, (r.next 1).2)

/-- `Math::is_pow_2` from `src/math.rs`: `(n & (n - 1)) == 0` on `i32`. -/
def Math.is_pow_2 (n : Int) : Bool := Int.land n (n - 1) == 0

/-- The rejection loop of `JavaRandom::next_bounded_int`, with fuel.  The Rust
loop retries unboundedly until `next(31) < max_try`; a retry happens with
probability below `2^-27` per draw, and the embedding accepts the draw
unconditionally once the fuel (64 retries) is exhausted.  Every branch returns
`try_value % bound`, so the result lies in `[0, bound)` regardless of fuel. -/
def nextBoundedLoop (bound maxTry : Int) : JavaRandom → Nat → Int × JavaRandom
  | r, 0 => ((r.next 31).1 % bound, (r.next 31).2)
  | r, fuel + 1 =>
    if (r.next 31).1 < maxTry then ((r.next 31).1 % bound, (r.next 31).2)
    else nextBoundedLoop bound maxTry (r.next 31).2 fuel

/-- `JavaRandom::next_bounded_int(bound)`.  For the power-of-two branch,
`(bound as i64 * next(31) as i64) >> 31` is an arithmetic shift of a
nonnegative product, i.e. floor division by `2^31` (`Int./` is floor division
for a positive divisor). -/
def JavaRandom.next_bounded_int (r : JavaRandom) (bound : Int) : Int × JavaRandom :=
  if bound ≤ 0 then (0, r)
  else if Math.is_pow_2 bound then
    (bound * (r.next 31).1 / 2 ^ 31, (r.next 31).2)
  else
    nextBoundedLoop bound (2 ^ 31 - 2 ^ 31 % bound) r 64

/-- `Math::next_int(rng, min, max)` from `src/math.rs`: uniform in
`[min, max]`, or `min` when `min >= max`. -/
def Math.next_int (r : JavaRandom) (min max : Int) : Int × JavaRandom :=
  if min ≥ max then (min, r)
  else ((r.next_bounded_int (max - min + 1)).1 + min, (r.next_bounded_int (max - min + 1)).2)

/-- `array.swap(i, j)` on a list: exchange positions `i` and `j`.  Both
indices are in bounds at every call site (Rust would panic otherwise). -/
def listSwap {α : Type} (l : List α) (i j : Nat) : List α :=
  match l[i]?, l[j]? with
  | some x, some y => (l.set i y).set j x
  | _, _ => l

/-- The loop of `shuffle` from `src/random.rs`: `i` counts down from the
length; while `i > 1`, swap position `i - 1` with `next_bounded_int(i)`. -/
def shuffleGo {α : Type} : List α → JavaRandom → Nat → List α × JavaRandom
  | l, r, 0 => (l, r)
  | l, r, 1 => (l, r)
  | l, r, i + 2 =>
    shuffleGo (listSwap l (i + 1) (r.next_bounded_int ((i : Int) + 2)).1.toNat)
      (r.next_bounded_int ((i : Int) + 2)).2 (i + 1)

/-- `shuffle(array, random)` from `src/random.rs`. -/
def shuffle {α : Type} (l : List α) (r : JavaRandom) : List α × JavaRandom :=
  shuffleGo l r l.length

/-! ## `src/features/end_pillars.rs`

`EndPillar` keeps the integer fields of the Rust struct.  The `x`/`z` fields
(rounded `f64` cosine/sine positions) are omitted: they depend only on the slot
position `i`, not on the seed, and no claim mentions them.  Match weights
(`f64` in Rust) are modeled as exact rationals; every weight the code builds
is a small dyadic-denominator fraction, exactly representable in `f64`. -/

structure EndPillar where
  index : Int
  height : Int
  radius : Int
  caged : Bool
  deriving DecidableEq

/-- `EndPillars::from_seed`: seed a PRNG with the pillar seed, shuffle
`[0, …, 9]`, then fill pillar `i` from `indices[i]`
(`height = 76 + 3 * index`, `radius = 2 + index / 3`,
`caged = (index == 1 || index == 2)`). -/
def EndPillars.from_seed (pillar_seed : Int) : List EndPillar :=
  ((shuffle [0, 1, 2, 3, 4, 5, 6, 7, 8, 9] (JavaRandom.new pillar_seed)).1).map
    (fun index =>
      { index := index
        height := 76 + 3 * index
        radius := 2 + index / 3
        caged := index == 1 || index == 2 })

inductive PillarHeightHint where
  | Range (min max : Int)
  | Exact (h : Int)
  | Big
  | Medium
  | Small
  | MediumBig
  | MediumSmall
  | Unknown
  deriving DecidableEq

structure PartialEndPillar where
  caged : Option Bool
  height : PillarHeightHint
  deriving DecidableEq

inductive PillarMatchResult where
  | ImpossibleMatch
  | ExactMatch
  | PossibleMatch (weight : ℚ)
  deriving DecidableEq

/-- `PillarMatchResult::combine`. -/
def PillarMatchResult.combine : PillarMatchResult → PillarMatchResult → PillarMatchResult
  | .ImpossibleMatch, _ => .ImpossibleMatch
  | _, .ImpossibleMatch => .ImpossibleMatch
  | .ExactMatch, v => v
  | v, .ExactMatch => v
  | .PossibleMatch w1, .PossibleMatch w2 => .PossibleMatch (w1 * w2)

/-- `PillarMatchResult::compare` (note: the final arm of the Rust `match`
returns `Less` both when `w1 < w2` and when `w1 > w2`). -/
def PillarMatchResult.compare : PillarMatchResult → PillarMatchResult → Ordering
  | .ImpossibleMatch, .ImpossibleMatch => .eq
  | .ExactMatch, .ExactMatch => .eq
  | .ImpossibleMatch, _ => .lt
  | _, .ImpossibleMatch => .gt
  | .ExactMatch, _ => .gt
  | _, .ExactMatch => .lt
  | .PossibleMatch w1, .PossibleMatch w2 =>
    if w1 < w2 then .lt else if w1 = w2 then .eq else .lt

/-- The cage part of `PartialEndPillar::matches`: `ExactMatch` on an agreeing
observation, an early `ImpossibleMatch` return on a disagreeing one,
`PossibleMatch(1.0)` when nothing was observed. -/
def PartialEndPillar.cageResult (pp : PartialEndPillar) (pl : EndPillar) : PillarMatchResult :=
  match pp.caged with
  | some c => if c == pl.caged then .ExactMatch else .ImpossibleMatch
  | none => .PossibleMatch 1

/-- The height part of `PartialEndPillar::matches`, one arm per
`PillarHeightHint` variant, with the `f64` weight arithmetic carried out
in `ℚ`. -/
def PartialEndPillar.heightResult (pp : PartialEndPillar) (pl : EndPillar) : PillarMatchResult :=
  match pp.height with
  | .Unknown => .PossibleMatch 1
  | .Exact h => if h == pl.height then .ExactMatch else .ImpossibleMatch
  | .Range min max =>
    if pl.height ≥ min ∧ pl.height ≤ max then .ExactMatch else .ImpossibleMatch
  | .Big =>
    if pl.height < 97 then .ImpossibleMatch
    else .PossibleMatch ((((pl.height : ℚ) - 97) / (103 - 97) + 1) / 2)
  | .Medium =>
    if pl.height < 85 ∨ pl.height > 94 then .ImpossibleMatch
    else .PossibleMatch ((1 - |(pl.height : ℚ) - 89.5| / (94 - 85) + 1) / 2)
  | .Small =>
    if pl.height > 82 then .ImpossibleMatch
    else .PossibleMatch (((82 - (pl.height : ℚ)) / (82 - 76) + 1) / 2)
  | .MediumBig =>
    if pl.height < 88 then .ImpossibleMatch
    else .PossibleMatch (1 - |(pl.height : ℚ) - 95.5| / (103 - 88))
  | .MediumSmall =>
    if pl.height > 97 then .ImpossibleMatch
    else .PossibleMatch (1 - |(pl.height : ℚ) - 83.5| / (91 - 76))

/-- `PartialEndPillar::matches`.  The Rust function returns
`ImpossibleMatch` early from either component and otherwise
`cage_match.combine(height_match)`; since `combine` absorbs
`ImpossibleMatch`, this is exactly the combination of the two parts. -/
def PartialEndPillar.matches (pp : PartialEndPillar) (pl : EndPillar) : PillarMatchResult :=
  (pp.cageResult pl).combine (pp.heightResult pl)

/-- The fold inside `PartialEndPillars::matches`: walk the zipped
(pillar, observation) pairs, returning early on `ImpossibleMatch` and
combining everything else onto the accumulator. -/
def matchesFold : List (EndPillar × PartialEndPillar) → PillarMatchResult → PillarMatchResult
  | [], acc => acc
  | (pl, pp) :: rest, acc =>
    match pp.matches pl with
    | .ImpossibleMatch => .ImpossibleMatch
    | w => matchesFold rest (acc.combine w)

/-- `PartialEndPillars::matches`: fold over the ten (pillar, observation)
pairs starting from `ExactMatch`. -/
def PartialEndPillars.matches (obs : List PartialEndPillar) (pillars : List EndPillar) :
    PillarMatchResult :=
  matchesFold (pillars.zip obs) .ExactMatch

/-- `PartialEndPillars::seed_results`: for every pillar seed in
`[0, 65536)`, in order, the pair of the seed and its match result. -/
def PartialEndPillars.seed_results (obs : List PartialEndPillar) :
    List (Int × PillarMatchResult) :=
  (List.range 65536).map
    (fun (pillar_seed : Nat) =>
      ((pillar_seed : Int),
        PartialEndPillars.matches obs (EndPillars.from_seed (pillar_seed : Int))))

/-- A partial observation whose first pillar has an impossible exact height
(`0` is not an end-pillar height), used to exhibit `ImpossibleMatch` entries
in `seed_results`. -/
def obsImpossible : List PartialEndPillar :=
  ⟨none, .Exact 0⟩ :: List.replicate 9 ⟨none, .Unknown⟩

/-! ## `src/seedcracker_lib/src/search.rs`

The rayon parallel iterators deterministically enumerate their ranges; the
per-candidate closures are pure, so the drivers are modeled as maps/folds over
`List.range`.  The external biome/structure checks (`cubiomes` calls inside
`StructureData::check_seed` / `WorldExtraData::check_seed`) are abstracted as
an opaque predicate parameter. -/

/-- The per-candidate computation of `StructureSeedSearcher::compute`: form
`state = state_hi << 32 | pillar_seed << 16 | state_lo`, apply the two-step
inverse LCG, and XOR with the Java multiplier. -/
def stageSCandidate (pillar_seed state_hi state_lo : Nat) : Nat :=
  JAVA_RANDOM_REV2.next_seed (state_hi <<< 32 ||| pillar_seed <<< 16 ||| state_lo)
    ^^^ JAVA_RANDOM.multiplier

/-- `((b_state >> 16) as i32) as i64` on bit patterns: take the low 32 bits
and sign-extend them to 64 bits. -/
def signExt32to64 (x : Nat) : Nat :=
  if x % 2 ^ 32 < 2 ^ 31 then x % 2 ^ 32 else x % 2 ^ 32 + (2 ^ 64 - 2 ^ 32)

/-- The filter phase of `WorldSeedSearcher::compute_random`: for each
`b_state_lo` in `[0, 2^16)` reconstruct the candidate `nextLong` output and
keep it when its low 48 bits equal the structure seed.  The `<< 16` of the
shifted `state_a` wraps in `i64`, hence the reduction modulo `2^64`. -/
def computeRandomCandidates (structure_seed : Nat) : List Nat :=
  (List.range 65536).filterMap (fun b_state_lo =>
    if ((JAVA_RANDOM_REV1.next_seed ((structure_seed &&& 0xFFFFFFFF) <<< 16 ||| b_state_lo)
          &&& 0xFFFFFFFF0000) <<< 16 % 2 ^ 64
        + signExt32to64 (((structure_seed &&& 0xFFFFFFFF) <<< 16 ||| b_state_lo) >>> 16)) % 2 ^ 64
        &&& 0xFFFFFFFFFFFF == structure_seed then
      some (((JAVA_RANDOM_REV1.next_seed ((structure_seed &&& 0xFFFFFFFF) <<< 16 ||| b_state_lo)
          &&& 0xFFFFFFFF0000) <<< 16 % 2 ^ 64
        + signExt32to64 (((structure_seed &&& 0xFFFFFFFF) <<< 16 ||| b_state_lo) >>> 16)) % 2 ^ 64)
    else none)

/-- The sequential dedupe-and-filter phase of
`WorldSeedSearcher::compute_random`: walk the candidates; skip values already
tried, record fresh ones, keep those passing every external data check, and
stop once `max_results` is exceeded. -/
def dedupeGo (check : Nat → Bool) (max_results : Nat) :
    List Nat → List Nat → List Nat → List Nat
  | [], _, ok => ok
  | v :: rest, tried, ok =>
    if tried.contains v then dedupeGo check max_results rest tried ok
    else if check v then
      if (ok ++ [v]).length > max_results then ok ++ [v]
      else dedupeGo check max_results rest (tried ++ [v]) (ok ++ [v])
    else dedupeGo check max_results rest (tried ++ [v]) ok

/-- `WorldSeedSearcher::compute_random`. -/
def WorldSeedSearcher.compute_random (structure_seed : Nat) (check : Nat → Bool)
    (max_results : Nat) : List Nat :=
  dedupeGo check max_results (computeRandomCandidates structure_seed) [] []

/-! ## Derived semantic functions used by the proofs -/

/-- One application of the affine map `s ↦ a·s + c` reduced modulo `2^48`. -/
def affStep (a c s : Nat) : Nat := (a * s + c) % 2 ^ 48

/-- One forward step of the Java LCG on 48-bit states. -/
def JSTEP : Nat → Nat := affStep 0x5DEECE66D 0xB

/-- The doubling map on affine pairs modulo `2^48`, used to compute the
`2^64`-th iterate of the Java step by 64 squarings. -/
def sqPair (p : Nat × Nat) : Nat × Nat :=
  ((p.1 * p.1) % 2 ^ 48, ((p.1 + 1) * p.2) % 2 ^ 48)

/-! ## `src/loot_table.rs`

`SetDamageFunction` (pure `f32` arithmetic, used only by the bastion tables)
is omitted from the `LootFunction` model; no claim touches it.  `LootFunction`
is a closed inductive over the repository's loot-function implementations.
Rust `i32` division/remainder truncate toward zero (`Int.tdiv`/`Int.tmod`).
Code paths that can hit a Rust `panic` (the `Index not found` branch of
`select_entry`, out-of-range indexing) return `none`. -/

inductive ItemProperty where
  | Damage (max_durability damage : Int)
  | Enchantment (enchantment level : Int)
  deriving DecidableEq

structure ItemStack where
  item : Nat
  count : Int
  max_count : Int
  properties : List ItemProperty
  deriving DecidableEq

/-- `ItemStack::split(count)`: the first part receives
`min(count, self.count)`, the second the rest. -/
def ItemStack.split (s : ItemStack) (count : Int) : ItemStack × ItemStack :=
  ({ item := s.item, count := min count s.count, max_count := s.max_count,
     properties := s.properties },
   { item := s.item, count := s.count - min count s.count, max_count := s.max_count,
     properties := s.properties })

/-- `SingleChest`: three rows of nine optional stacks. -/
structure SingleChest where
  rows : List (List (Option ItemStack))
  deriving DecidableEq

/-- `SingleChest::new()`: all 27 slots empty. -/
def SingleChest.new : SingleChest := ⟨List.replicate 3 (List.replicate 9 none)⟩

/-- `SingleChest::get_slot`: `none` out of `[0, 27)`, otherwise the slot at
`rows[slot / 9][slot % 9]`. -/
def SingleChest.get_slot (c : SingleChest) (slot : Int) : Option (Option ItemStack) :=
  if slot < 0 ∨ slot ≥ 27 then none
  else some ((c.rows.getD (slot.toNat / 9) []).getD (slot.toNat % 9) none)

/-- `Inventory::set_item` for `SingleChest`: write the slot when it exists,
no-op out of range. -/
def SingleChest.set_item (c : SingleChest) (slot : Int) (item : Option ItemStack) : SingleChest :=
  if slot < 0 ∨ slot ≥ 27 then c
  else ⟨c.rows.set (slot.toNat / 9)
    ((c.rows.getD (slot.toNat / 9) []).set (slot.toNat % 9) item)⟩

/-- `Inventory::get_item` for `SingleChest` (`get_slot` flattened by `?`). -/
def SingleChest.get_item (c : SingleChest) (slot : Int) : Option ItemStack :=
  match c.get_slot slot with
  | some v => v
  | none => none

structure FastInventoryCompareContext where
  items_count : List Int
  total_items : Int
  inventory : SingleChest
  deriving DecidableEq

/-- `LootTableRange<i32>` (the `f32` instance backs only the omitted
`SetDamageFunction`). -/
inductive LootTableRange where
  | Uniform (min max : Int)
  | Constant (value : Int)
  deriving DecidableEq

/-- `LootTableRange::<i32>::apply`. -/
def LootTableRange.apply (range : LootTableRange) (rng : JavaRandom) : Int × JavaRandom :=
  match range with
  | .Uniform mn mx =>
    if mn ≥ mx then (mn, rng)
    else ((rng.next_bounded_int (mx - mn + 1)).1 + mn, (rng.next_bounded_int (mx - mn + 1)).2)
  | .Constant v => (v, rng)

inductive LootFunction where
  | SetCount (range : LootTableRange)
  | SetEnchantsRandomly (enchantments : List (Int × Int × Int))
  deriving DecidableEq

/-- `LootFunction::apply` for the modeled functions (`luck` is ignored by
both, as in the source). -/
def LootFunction.apply (f : LootFunction) (item : ItemStack) (rng : JavaRandom) :
    ItemStack × JavaRandom :=
  match f with
  | .SetCount range =>
    ({ item := item.item, count := (range.apply rng).1, max_count := item.max_count,
       properties := item.properties }, (range.apply rng).2)
  | .SetEnchantsRandomly enchs =>
    match enchs with
    | [] => (item, rng)
    | _ :: _ =>
      match enchs[((rng.next_bounded_int (enchs.length : Int)).1).toNat]? with
      | none => (item, (rng.next_bounded_int (enchs.length : Int)).2)
      | some (ench, minl, maxl) =>
        ({ item := item.item, count := item.count, max_count := item.max_count,
           properties := item.properties ++ [.Enchantment ench
             (Math.next_int (rng.next_bounded_int (enchs.length : Int)).2 minl maxl).1] },
         (Math.next_int (rng.next_bounded_int (enchs.length : Int)).2 minl maxl).2)

structure ItemLootPoolEntry where
  weight : Int
  quality : Int
  stack_size : Int
  item : Nat
  functions : List LootFunction
  deriving DecidableEq

/-- Rust saturating `as i32` cast of an integer value. -/
def satI32 (x : Int) : Int := min (max x (-2 ^ 31)) (2 ^ 31 - 1)

/-- `ItemLootPoolEntry::get_weight`:
`(weight + (quality as f32 * luck).floor() as i32).max(0)`, with the `f32`
product modeled exactly in `ℚ`. -/
def ItemLootPoolEntry.get_weight (e : ItemLootPoolEntry) (luck : ℚ) : Int :=
  max (e.weight + satI32 ⌊(e.quality : ℚ) * luck⌋) 0

/-- The function-application fold of `ItemLootPoolEntry::generate_raw_loot`. -/
def applyFns : List LootFunction → ItemStack × JavaRandom → ItemStack × JavaRandom
  | [], st => st
  | f :: fs, st => applyFns fs (f.apply st.1 st.2)

/-- `ItemLootPoolEntry::generate_raw_loot`: start from one item of count 1
and apply the functions in order. -/
def ItemLootPoolEntry.generate_raw_loot (e : ItemLootPoolEntry) (rng : JavaRandom) :
    ItemStack × JavaRandom :=
  applyFns e.functions
    ({ item := e.item, count := 1, max_count := e.stack_size, properties := [] }, rng)

structure LootPool where
  rolls : LootTableRange
  entries : List ItemLootPoolEntry
  deriving DecidableEq

/-- The `(min_inc, max_exc)` prefix-interval list built by `select_entry`. -/
def buildTotals (entries : List ItemLootPoolEntry) (luck : ℚ) (acc : Int) :
    List (Int × Int) :=
  match entries with
  | [] => []
  | e :: rest => (acc, acc + e.get_weight luck) :: buildTotals rest luck (acc + e.get_weight luck)

/-- The final `total` accumulated by the same loop. -/
def totalWeight (entries : List ItemLootPoolEntry) (luck : ℚ) : Int :=
  (entries.map (fun e => e.get_weight luck)).sum

/-- The comparator closure passed to `binary_search_by` in `select_entry`. -/
def cmpInterval (i : Int) (p : Int × Int) : Ordering :=
  if i < p.1 then .gt else if i ≥ p.2 then .lt else .eq

/-- `slice::binary_search_by` from the Rust standard library (a caller of
this repository's comparator; modeled from its documented midpoint loop).
The fuel bounds the iteration count: the interval width shrinks by at least
one per step, so `length + 1` iterations always suffice; `none` is the
`Err(_)` outcome, which `select_entry` turns into a panic. -/
def bsearchGo (arr : List (Int × Int)) (i : Int) : Nat → Nat → Nat → Option Nat
  | 0, _, _ => none
  | fuel + 1, left, right =>
    if left < right then
      match cmpInterval i (arr.getD (left + (right - left) / 2) (0, 0)) with
      | .lt => bsearchGo arr i fuel (left + (right - left) / 2 + 1) right
      | .gt => bsearchGo arr i fuel left (left + (right - left) / 2)
      | .eq => some (left + (right - left) / 2)
    else none

def binarySearchBy (arr : List (Int × Int)) (i : Int) : Option Nat :=
  bsearchGo arr i (arr.length + 1) 0 arr.length

/-- `LootPool::select_entry`: single-entry pools skip the weighting; otherwise
draw `i = next_bounded_int(total)` and binary-search the interval containing
`i`.  `none` models the `Err(_) => panic` branch. -/
def LootPool.select_entry (pool : LootPool) (rng : JavaRandom) (luck : ℚ) :
    Option (ItemLootPoolEntry × JavaRandom) :=
  match pool.entries with
  | [e] => some (e, rng)
  | _ =>
    match binarySearchBy (buildTotals pool.entries luck 0)
        (rng.next_bounded_int (totalWeight pool.entries luck)).1 with
    | some idx =>
      match pool.entries[idx]? with
      | some e => some (e, (rng.next_bounded_int (totalWeight pool.entries luck)).2)
      | none => none
    | none => none

/-- The roll loop of `LootPool::generate_raw_loot`. -/
def poolRollsGo (pool : LootPool) (luck : ℚ) : Nat → JavaRandom →
    Option (List ItemStack × JavaRandom)
  | 0, rng => some ([], rng)
  | n + 1, rng =>
    match pool.select_entry rng luck with
    | none => none
    | some (e, r1) =>
      match poolRollsGo pool luck n (e.generate_raw_loot r1).2 with
      | none => none
      | some (rest, r3) => some ((e.generate_raw_loot r1).1 :: rest, r3)

/-- `LootPool::generate_raw_loot`. -/
def LootPool.generate_raw_loot (pool : LootPool) (rng : JavaRandom) (luck : ℚ) :
    Option (List ItemStack × JavaRandom) :=
  poolRollsGo pool luck ((pool.rolls.apply rng).1).toNat (pool.rolls.apply rng).2

structure LootTable where
  pools : List LootPool
  deriving DecidableEq

/-- The pool loop of `LootTable::generate_raw_loot`. -/
def tableRawGo (luck : ℚ) : List LootPool → JavaRandom →
    Option (List ItemStack × JavaRandom)
  | [], rng => some ([], rng)
  | p :: ps, rng =>
    match p.generate_raw_loot rng luck with
    | none => none
    | some (items, r1) =>
      match tableRawGo luck ps r1 with
      | none => none
      | some (rest, r2) => some (items ++ rest, r2)

/-- `LootTable::generate_raw_loot`. -/
def LootTable.generate_raw_loot (t : LootTable) (rng : JavaRandom) (luck : ℚ) :
    Option (List ItemStack × JavaRandom) :=
  tableRawGo luck t.pools rng

/-- The per-stack body of `LootTable::divide` (also inlined by the
`compare_fast0` callback): split an over-max stack into full stacks plus a
remainder; with a zero remainder a single full stack is pushed. -/
def divideOne (items : ItemStack) : List ItemStack :=
  if items.count < items.max_count then [items]
  else
    if (items.count).tmod items.max_count > 0 then
      List.replicate ((items.count).tdiv items.max_count).toNat
        { item := items.item, count := items.max_count, max_count := items.max_count,
          properties := items.properties }
      ++ [{ item := items.item, count := (items.count).tmod items.max_count,
            max_count := items.max_count, properties := items.properties }]
    else
      [{ item := items.item, count := items.max_count, max_count := items.max_count,
         properties := items.properties }]

/-- `LootTable::divide` (`flat_map` over `divideOne`). -/
def divideList : List ItemStack → List ItemStack
  | [] => []
  | x :: xs => divideOne x ++ divideList xs

/-- `LootTable::get_free_slots` for a `SingleChest` (27 slots): the slots
that are empty or hold a zero-count stack, shuffled. -/
def LootTable.get_free_slots (inv : SingleChest) (rng : JavaRandom) :
    List Int × JavaRandom :=
  shuffle (((List.range 27).map (fun (s : Nat) => (s : Int))).filter
    (fun slot =>
      match inv.get_item slot with
      | some items => items.count == 0
      | none => true)) rng

/-- The first loop of `shuffle_loot`: drop zero-count stacks, move stacks
with `count > 1` into the `moved` pile, keep the rest, preserving order.
Returns `(loot, moved)`. -/
def shuffleLootPhase1 : List ItemStack → List ItemStack × List ItemStack
  | [] => ([], [])
  | x :: xs =>
    if x.count == 0 then shuffleLootPhase1 xs
    else if x.count > 1 then
      ((shuffleLootPhase1 xs).1, x :: (shuffleLootPhase1 xs).2)
    else
      (x :: (shuffleLootPhase1 xs).1, (shuffleLootPhase1 xs).2)

/-- Re-enqueueing one split half in `shuffle_loot`: stacks with `count > 1`
go back to `moved` on a coin flip (no draw happens for `count <= 1`). -/
def pushPiece (st : ItemStack) (moved loot : List ItemStack) (rng : JavaRandom) :
    List ItemStack × List ItemStack × JavaRandom :=
  if st.count > 1 then
    if (rng.next_bool).1 then (moved ++ [st], loot, (rng.next_bool).2)
    else (moved, loot ++ [st], (rng.next_bool).2)
  else (moved, loot ++ [st], rng)

/-- The splitting loop of `shuffle_loot`: while the piles do not fill the
free slots and `moved` is nonempty, pull a random moved stack, split off a
random count in `[1, count/2]`, and re-enqueue both halves (the `a` remainder
first, then the `b` part, as in the source).  Each iteration grows the total
stack count by one, so `freeSlots + 1` fuel always suffices; `none` models
the (unreachable) out-of-range `moved.remove(i)` panic. -/
def shuffleLootSplit (freeSlots : Nat) : Nat → List ItemStack → List ItemStack →
    JavaRandom → Option (List ItemStack × List ItemStack × JavaRandom)
  | 0, moved, loot, rng => some (moved, loot, rng)
  | fuel + 1, moved, loot, rng =>
    if moved.length + loot.length < freeSlots ∧ moved ≠ [] then
      match moved[((Math.next_int rng 0 ((moved.length : Int) - 1)).1).toNat]? with
      | none => none
      | some stack =>
        match
          pushPiece (stack.split ((Math.next_int
              (Math.next_int rng 0 ((moved.length : Int) - 1)).2 1
              (stack.count.tdiv 2)).1)).2
            (moved.eraseIdx ((Math.next_int rng 0 ((moved.length : Int) - 1)).1).toNat)
            loot
            (Math.next_int (Math.next_int rng 0 ((moved.length : Int) - 1)).2 1
              (stack.count.tdiv 2)).2 with
        | (m1, l1, r1) =>
          match pushPiece (stack.split ((Math.next_int
              (Math.next_int rng 0 ((moved.length : Int) - 1)).2 1
              (stack.count.tdiv 2)).1)).1 m1 l1 r1 with
          | (m2, l2, r2) => shuffleLootSplit freeSlots fuel m2 l2 r2
    else some (moved, loot, rng)

/-- `LootTable::shuffle_loot`. -/
def LootTable.shuffle_loot (loot0 : List ItemStack) (freeSlots : Nat)
    (rng : JavaRandom) : Option (List ItemStack × JavaRandom) :=
  match shuffleLootSplit freeSlots (freeSlots + 1) (shuffleLootPhase1 loot0).2
      (shuffleLootPhase1 loot0).1 rng with
  | none => none
  | some (moved, loot, r1) => some (shuffle (loot ++ moved) r1)

/-- The placement loop shared by `generate_in_inventory` and
`compare_fast1`: pop slots from the back, place each stack (zero-count
stacks clear the slot), stop when the slots run out. -/
def placeLoot : SingleChest → List ItemStack → List Int → SingleChest
  | inv, [], _ => inv
  | inv, stack :: rest, slots =>
    match slots.getLast? with
    | none => inv
    | some slot =>
      placeLoot (inv.set_item slot (if stack.count == 0 then none else some stack))
        rest slots.dropLast

/-- `LootTable::generate_in_inventory`. -/
def LootTable.generate_in_inventory (t : LootTable) (inv : SingleChest)
    (rng : JavaRandom) (luck : ℚ) : Option SingleChest :=
  match t.generate_raw_loot rng luck with
  | none => none
  | some (raw, r1) =>
    match LootTable.shuffle_loot (divideList raw)
        (LootTable.get_free_slots inv r1).1.length
        (LootTable.get_free_slots inv r1).2 with
    | none => none
    | some (loot2, _) => some (placeLoot inv loot2 (LootTable.get_free_slots inv r1).1)

/-- The running state of the `compare_fast0` callback: the remaining
per-item tallies, the remaining total, the divided loot accumulated so far,
the stop flag, and the PRNG. -/
structure CBState where
  remCount : List Int
  remItems : Int
  loot : List ItemStack
  stop : Bool
  rng : JavaRandom

/-- The `compare_fast0` callback body: decrement the tallies and stop when
either goes negative, otherwise push the divided stack.  `none` is the Rust
index panic for an item id outside the tally array. -/
def callbackBody (items : ItemStack) (st : CBState) : Option CBState :=
  match st.remCount[items.item]? with
  | none => none
  | some rc =>
    if rc - items.count < 0 then
      some { remCount := st.remCount.set items.item (rc - items.count),
             remItems := st.remItems, loot := st.loot, stop := true, rng := st.rng }
    else if st.remItems - items.count < 0 then
      some { remCount := st.remCount.set items.item (rc - items.count),
             remItems := st.remItems - items.count, loot := st.loot, stop := true,
             rng := st.rng }
    else
      some { remCount := st.remCount.set items.item (rc - items.count),
             remItems := st.remItems - items.count,
             loot := st.loot ++ divideOne items, stop := st.stop, rng := st.rng }

/-- The roll loop of `LootPool::generate_raw_loot_callback` (stop checked
before each roll). -/
def rollIterCB (pool : LootPool) (luck : ℚ) : Nat → CBState → Option CBState
  | 0, st => some st
  | n + 1, st =>
    if st.stop then some st
    else
      match pool.select_entry st.rng luck with
      | none => none
      | some (e, r1) =>
        match callbackBody (e.generate_raw_loot r1).1
            { remCount := st.remCount, remItems := st.remItems, loot := st.loot,
              stop := st.stop, rng := (e.generate_raw_loot r1).2 } with
        | none => none
        | some st2 => rollIterCB pool luck n st2

/-- `LootPool::generate_raw_loot_callback`. -/
def poolCallbackCB (pool : LootPool) (luck : ℚ) (st : CBState) : Option CBState :=
  rollIterCB pool luck ((pool.rolls.apply st.rng).1).toNat
    { remCount := st.remCount, remItems := st.remItems, loot := st.loot,
      stop := st.stop, rng := (pool.rolls.apply st.rng).2 }

/-- The pool loop of `LootTable::generate_raw_loot_callback` (stop checked
before each pool). -/
def tableCallbackCB (luck : ℚ) : List LootPool → CBState → Option CBState
  | [], st => some st
  | p :: ps, st =>
    if st.stop then some st
    else
      match poolCallbackCB p luck st with
      | none => none
      | some st2 => tableCallbackCB luck ps st2

/-- `LootTable::compare_fast` (the `compare_fast0` + `compare_fast1`
macros): replay the generation against the tallies; on early stop return
`false`, otherwise split-shuffle-place into a cleared scratch chest and
compare structurally with the observed inventory. -/
def LootTable.compare_fast (t : LootTable) (rng : JavaRandom) (luck : ℚ)
    (ctx : FastInventoryCompareContext) : Option Bool :=
  match tableCallbackCB luck t.pools
      { remCount := ctx.items_count, remItems := ctx.total_items, loot := [],
        stop := false, rng := rng } with
  | none => none
  | some st =>
    if st.stop then some false
    else
      match LootTable.shuffle_loot st.loot
          (LootTable.get_free_slots SingleChest.new st.rng).1.length
          (LootTable.get_free_slots SingleChest.new st.rng).2 with
      | none => none
      | some (loot2, _) =>
        some (placeLoot SingleChest.new loot2
            (LootTable.get_free_slots SingleChest.new st.rng).1 == ctx.inventory)

/-! ## `src/features/buried_treasure.rs` and the seed helpers of
`src/random.rs` -/

/-- `x | 1` on `i64`: set the lowest bit (equal to `x + 1` for even `x` and
`x` for odd `x` in two's complement). -/
def orOne (x : Int) : Int := if x % 2 = 0 then x + 1 else x

/-- `Math::relative_chunk_coords`. -/
def Math.relative_chunk_coords (chunk block : Int × Int) : Int × Int :=
  (chunk.1 * 16 + block.1, chunk.2 * 16 + block.2)

/-- The seed computed by `random_with_population_seed`:
`(block_x·(nextLong|1) + block_z·(nextLong|1)) ^ world_seed` with wrapping
`i64` arithmetic. -/
def population_seed (world_seed block_x block_z : Int) : Int :=
  Int.xor
    (wrap64 (wrap64 (block_x * orOne ((JavaRandom.new world_seed).next_long.1))
      + wrap64 (block_z * orOne (((JavaRandom.new world_seed).next_long.2).next_long.1))))
    world_seed

/-- The seed computed by `random_with_decorator_seed`. -/
def decorator_seed (pop index step : Int) : Int :=
  wrap64 (wrap64 (pop + index) + wrap64 (1000 * step))

/-- `get_buried_treasure_loot_table_seed`: decorator PRNG at
`(index = 1, step = 30)` over the population seed of the chunk's `(0, 0)`
block, then one `nextLong`. -/
def get_buried_treasure_loot_table_seed (world_seed : Int) (chunk : Int × Int) : Int :=
  (JavaRandom.new (decorator_seed
    (population_seed world_seed (Math.relative_chunk_coords chunk (0, 0)).1
      (Math.relative_chunk_coords chunk (0, 0)).2) 1 30)).next_long.1

/-- `get_loot_table()` from `buried_treasure.rs` with the builder chain
inlined (builder defaults: weight 1, quality 1, stack size 64, no
functions).  Item ids as in `buried_treasure::items`. -/
def get_loot_table : LootTable :=
  ⟨[{ rolls := .Constant 1,
      entries := [{ weight := 1, quality := 1, stack_size := 64, item := 1, functions := [] }] },
    { rolls := .Uniform 5 8,
      entries := [
        { weight := 20, quality := 1, stack_size := 64, item := 2,
          functions := [.SetCount (.Uniform 1 4)] },
        { weight := 10, quality := 1, stack_size := 64, item := 3,
          functions := [.SetCount (.Uniform 1 4)] },
        { weight := 5, quality := 1, stack_size := 64, item := 4,
          functions := [.SetCount (.Uniform 1 2)] }] },
    { rolls := .Uniform 1 3,
      entries := [
        { weight := 5, quality := 1, stack_size := 64, item := 5,
          functions := [.SetCount (.Uniform 4 8)] },
        { weight := 5, quality := 1, stack_size := 64, item := 6,
          functions := [.SetCount (.Uniform 1 2)] },
        { weight := 5, quality := 1, stack_size := 64, item := 7,
          functions := [.SetCount (.Uniform 1 5)] }] },
    { rolls := .Uniform 0 1,
      entries := [
        { weight := 1, quality := 1, stack_size := 1, item := 8, functions := [] },
        { weight := 1, quality := 1, stack_size := 1, item := 9, functions := [] }] },
    { rolls := .Constant 2,
      entries := [
        { weight := 1, quality := 1, stack_size := 64, item := 10,
          functions := [.SetCount (.Uniform 2 4)] },
        { weight := 1, quality := 1, stack_size := 64, item := 11,
          functions := [.SetCount (.Uniform 2 4)] }] }]⟩

/-- `get_buried_treasure`. -/
def get_buried_treasure (world_seed : Int) (chunk : Int × Int) (luck : ℚ) :
    Option SingleChest :=
  get_loot_table.generate_in_inventory SingleChest.new
    (JavaRandom.new (get_buried_treasure_loot_table_seed world_seed chunk)) luck

/-- The occupied stacks of a chest in row-major order (`rows.iter()` with
`items.iter().flatten()`). -/
def chestStacks (c : SingleChest) : List (List ItemStack) :=
  c.rows.map (fun row => row.filterMap id)

/-- Fold one row of stacks into the per-item tally array (indices beyond the
array would panic in Rust; generated chests only hold ids below 12). -/
def tallyCounts (arr : List Int) (sts : List ItemStack) : List Int :=
  sts.foldl (fun a it => a.set it.item (a.getD it.item 0 + it.count)) arr

/-- `build_fast_inventory_compare_context`. -/
def build_fast_inventory_compare_context (contents : SingleChest) :
    FastInventoryCompareContext :=
  { inventory := contents
    items_count := (chestStacks contents).foldl tallyCounts (List.replicate 12 0)
    total_items := ((chestStacks contents).map
      (fun row => (row.map (fun it => it.count)).sum)).sum }

/-- `compare_buried_treasure_fast` (the scratch inventory is created empty,
as after the caller's `clear`). -/
def compare_buried_treasure_fast (world_seed : Int) (chunk : Int × Int) (luck : ℚ)
    (ctx : FastInventoryCompareContext) : Option Bool :=
  get_loot_table.compare_fast
    (JavaRandom.new (get_buried_treasure_loot_table_seed world_seed chunk)) luck ctx

/-! ## Proof-support definitions

`sumId`/`totalCount` are the per-item and overall item counts of a stack
list; `chestCount`/`chestTotal` the same for a chest's slots.  `goodEntryB`
is a decidable sufficient condition on a loot-pool entry under which every
stack it generates is `goodStack` (nonnegative count within a positive
maximum, item id below the tally-array size).  The `...Z` definitions are
the `luck = 0` specializations of the generation pipeline; they are proved
equal to the real definitions at `luck = 0` and exist because `ℚ`
arithmetic does not reduce inside the kernel while the specialized pipeline
is integer-only and fully evaluable. -/

def sumId (i : Nat) : List ItemStack → Int
  | [] => 0
  | x :: xs => (if x.item = i then x.count else 0) + sumId i xs

def totalCount : List ItemStack → Int
  | [] => 0
  | x :: xs => x.count + totalCount xs

def optCount (i : Nat) : Option ItemStack → Int
  | none => 0
  | some x => if x.item = i then x.count else 0

def optTotal : Option ItemStack → Int
  | none => 0
  | some x => x.count

def rowCount (i : Nat) (row : List (Option ItemStack)) : Int :=
  (row.map (optCount i)).sum

def chestCount (i : Nat) (c : SingleChest) : Int :=
  (c.rows.map (rowCount i)).sum

def rowTotal (row : List (Option ItemStack)) : Int :=
  (row.map optTotal).sum

def chestTotal (c : SingleChest) : Int :=
  (c.rows.map rowTotal).sum

def goodStack (x : ItemStack) : Prop :=
  0 ≤ x.count ∧ x.count ≤ x.max_count ∧ 0 < x.max_count ∧ x.item < 12

def goodFns : List LootFunction → Int → Bool
  | [], ss => decide (1 ≤ ss)
  | [.SetCount (.Uniform a b)], ss => decide (1 ≤ a) && decide (a ≤ b) && decide (b ≤ ss)
  | _, _ => false

def goodEntryB (e : ItemLootPoolEntry) : Bool :=
  decide (e.item < 12) && goodFns e.functions e.stack_size

def chestShape (c : SingleChest) : Prop :=
  c.rows.length = 3 ∧ ∀ row ∈ c.rows, row.length = 9

def get_weightZ (e : ItemLootPoolEntry) : Int := max e.weight 0

def buildTotalsZ : List ItemLootPoolEntry → Int → List (Int × Int)
  | [], _ => []
  | e :: rest, acc => (acc, acc + get_weightZ e) :: buildTotalsZ rest (acc + get_weightZ e)

def totalWeightZ (entries : List ItemLootPoolEntry) : Int :=
  (entries.map get_weightZ).sum

def select_entryZ (pool : LootPool) (rng : JavaRandom) :
    Option (ItemLootPoolEntry × JavaRandom) :=
  match pool.entries with
  | [e] => some (e, rng)
  | _ =>
    match binarySearchBy (buildTotalsZ pool.entries 0)
        (rng.next_bounded_int (totalWeightZ pool.entries)).1 with
    | some idx =>
      match pool.entries[idx]? with
      | some e => some (e, (rng.next_bounded_int (totalWeightZ pool.entries)).2)
      | none => none
    | none => none

def poolRollsGoZ (pool : LootPool) : Nat → JavaRandom →
    Option (List ItemStack × JavaRandom)
  | 0, rng => some ([], rng)
  | n + 1, rng =>
    match select_entryZ pool rng with
    | none => none
    | some (e, r1) =>
      match poolRollsGoZ pool n (e.generate_raw_loot r1).2 with
      | none => none
      | some (rest, r3) => some ((e.generate_raw_loot r1).1 :: rest, r3)

def tableRawGoZ : List LootPool → JavaRandom → Option (List ItemStack × JavaRandom)
  | [], rng => some ([], rng)
  | p :: ps, rng =>
    match poolRollsGoZ p ((p.rolls.apply rng).1).toNat (p.rolls.apply rng).2 with
    | none => none
    | some (items, r1) =>
      match tableRawGoZ ps r1 with
      | none => none
      | some (rest, r2) => some (items ++ rest, r2)

def generate_in_inventoryZ (t : LootTable) (inv : SingleChest) (rng : JavaRandom) :
    Option SingleChest :=
  match tableRawGoZ t.pools rng with
  | none => none
  | some (raw, r1) =>
    match LootTable.shuffle_loot (divideList raw)
        (LootTable.get_free_slots inv r1).1.length
        (LootTable.get_free_slots inv r1).2 with
    | none => none
    | some (loot2, _) => some (placeLoot inv loot2 (LootTable.get_free_slots inv r1).1)

def get_buried_treasureZ (world_seed : Int) (chunk : Int × Int) : Option SingleChest :=
  generate_in_inventoryZ get_loot_table SingleChest.new
    (JavaRandom.new (get_buried_treasure_loot_table_seed world_seed chunk))

def chestOkItems (c : SingleChest) : Prop :=
  ∀ row ∈ c.rows, ∀ o ∈ row, ∀ x : ItemStack, o = some x → x.item < 12

/-- The chest produced by `get_buried_treasure` at world seed 0, chunk
`(0, 0)`, luck 0 (computed by evaluating the embedded pipeline); it serves as
a concrete instance for the round-trip property. -/
def witnessChest : SingleChest :=
  ⟨[[some ⟨1, 1, 64, []⟩, some ⟨2, 1, 64, []⟩, some ⟨7, 1, 64, []⟩, some ⟨7, 1, 64, []⟩,
     some ⟨7, 1, 64, []⟩, some ⟨11, 2, 64, []⟩, some ⟨3, 1, 64, []⟩, none, none],
    [some ⟨7, 1, 64, []⟩, none, none, some ⟨4, 1, 64, []⟩, some ⟨6, 1, 64, []⟩, none, none,
     some ⟨2, 1, 64, []⟩, some ⟨10, 2, 64, []⟩],
    [none, some ⟨11, 1, 64, []⟩, some ⟨8, 1, 1, []⟩, some ⟨2, 2, 64, []⟩, some ⟨10, 1, 64, []⟩,
     some ⟨2, 2, 64, []⟩, some ⟨2, 1, 64, []⟩, none, none]]⟩

/-! # Theorems -/

/-! ### Semantics of `combine`: affine maps modulo `2^48` -/

lemma dvd_48_64 : (2 : Nat) ^ 48 ∣ 2 ^ 64 := pow_dvd_pow 2 (by norm_num)

lemma mod64_mod48 (x : Nat) : x % 2 ^ 64 % 2 ^ 48 = x % 2 ^ 48 :=
  Nat.mod_mod_of_dvd x dvd_48_64

lemma affStep_congr (a a' c c' : Nat) (ha : a % 2 ^ 48 = a' % 2 ^ 48)
    (hc : c % 2 ^ 48 = c' % 2 ^ 48) (s : Nat) : affStep a c s = affStep a' c' s := by
  unfold affStep
  exact Nat.ModEq.add (Nat.ModEq.mul_right s ha) hc

lemma affStep_comp (a1 c1 a2 c2 s : Nat) :
    affStep (a2 * a1 % 2 ^ 64) ((a2 * c1 % 2 ^ 64 + c2) % 2 ^ 64) s
      = affStep a2 c2 (affStep a1 c1 s) := by
  have h1 : affStep (a2 * a1 % 2 ^ 64) ((a2 * c1 % 2 ^ 64 + c2) % 2 ^ 64) s
      = affStep (a2 * a1) (a2 * c1 + c2) s := by
    refine affStep_congr _ _ _ _ (mod64_mod48 _) ?_ s
    calc (a2 * c1 % 2 ^ 64 + c2) % 2 ^ 64 % 2 ^ 48
        = (a2 * c1 % 2 ^ 64 + c2) % 2 ^ 48 := mod64_mod48 _
      _ = (a2 * c1 + c2) % 2 ^ 48 := Nat.ModEq.add_right c2 (mod64_mod48 _)
  rw [h1]
  unfold affStep
  calc (a2 * a1 * s + (a2 * c1 + c2)) % 2 ^ 48
      = (a2 * (a1 * s + c1) + c2) % 2 ^ 48 := by ring_nf
    _ = (a2 * ((a1 * s + c1) % 2 ^ 48) + c2) % 2 ^ 48 :=
        (Nat.ModEq.add_right c2 (Nat.ModEq.mul_left a2 (Nat.mod_mod_of_dvd _ dvd_rfl))).symm

/-- Squaring an intermediate pair in `combineLoop` composes the affine map
with itself. -/
lemma affStep_sq64 (im ic s : Nat) :
    affStep (im * im % 2 ^ 64) ((im + 1) % 2 ^ 64 * ic % 2 ^ 64) s
      = affStep im ic (affStep im ic s) := by
  rw [← affStep_comp im ic im ic s]
  refine affStep_congr _ _ _ _ rfl ?_ s
  calc (im + 1) % 2 ^ 64 * ic % 2 ^ 64 % 2 ^ 48
      = (im + 1) % 2 ^ 64 * ic % 2 ^ 48 := mod64_mod48 _
    _ = (im + 1) * ic % 2 ^ 48 := Nat.ModEq.mul_right ic (mod64_mod48 _)
    _ = (im * ic + ic) % 2 ^ 48 := by ring_nf
    _ = (im * ic % 2 ^ 64 + ic) % 2 ^ 48 :=
        (Nat.ModEq.add_right ic (mod64_mod48 _)).symm
    _ = (im * ic % 2 ^ 64 + ic) % 2 ^ 64 % 2 ^ 48 := (mod64_mod48 _).symm

/-- `combineLoop` computes the `k`-th iterate of the intermediate affine map,
composed onto the accumulator, as a map on 48-bit states. -/
lemma combineLoop_app (fuel : Nat) : ∀ k m c im ic s, k < 2 ^ fuel →
    affStep (combineLoop fuel k m c im ic).1 (combineLoop fuel k m c im ic).2 s
      = (affStep im ic)^[k] (affStep m c s) := by
  induction fuel with
  | zero =>
    intro k m c im ic s hk
    interval_cases k
    simp [combineLoop]
  | succ fuel ih =>
    intro k m c im ic s hk
    match k with
    | 0 => simp [combineLoop]
    | k + 1 =>
      rw [combineLoop]
      have hk2 : (k + 1) >>> 1 < 2 ^ fuel := by
        rw [Nat.shiftRight_eq_div_pow, pow_one]
        rw [pow_succ] at hk
        omega
      rw [ih _ _ _ _ _ s hk2]
      have hsq : affStep (im * im % 2 ^ 64) ((im + 1) % 2 ^ 64 * ic % 2 ^ 64)
          = (affStep im ic) ∘ (affStep im ic) := funext (affStep_sq64 im ic)
      rw [hsq]
      have hf2 : affStep im ic ∘ affStep im ic = (affStep im ic)^[2] := by
        rw [Function.iterate_succ, Function.iterate_one]
      rw [hf2, ← Function.iterate_mul]
      have hq : (k + 1) >>> 1 = (k + 1) / 2 := by
        rw [Nat.shiftRight_eq_div_pow, pow_one]
      rcases Nat.mod_two_eq_zero_or_one (k + 1) with h2 | h2
      · have hke : k + 1 = 2 * ((k + 1) >>> 1) := by omega
        simp only [Nat.and_one_is_mod, h2, bne_self_eq_false, if_neg, Bool.false_eq_true,
          not_false_eq_true, if_false]
        rw [← hke]
      · have hke : k + 1 = 2 * ((k + 1) >>> 1) + 1 := by omega
        simp only [Nat.and_one_is_mod, h2, if_pos, bne_iff_ne, ne_eq, one_ne_zero,
          not_false_eq_true, if_true]
        rw [Nat.mul_comm m im, affStep_comp]
        conv_rhs => rw [hke, Function.iterate_succ_apply]

lemma pat64_lt (x : Int) : pat64 x < 2 ^ 64 := by
  unfold pat64
  have h := Int.emod_lt_of_pos x (b := 2 ^ 64) (by norm_num)
  have h0 := Int.emod_nonneg x (b := 2 ^ 64) (by norm_num)
  omega

lemma JAVA_mod' (g : LCG) (hm : g.modulus = JAVA_RANDOM.modulus) (x : Nat) :
    g.mod' x = x % 2 ^ 48 := by
  have hsl : (1 : Nat) <<< 48 = 2 ^ 48 := by rw [Nat.shiftLeft_eq, one_mul]
  have hm' : g.modulus = 2 ^ 48 := by rw [hm]; exact hsl
  simp only [LCG.mod', hm', Nat.and_pow_two_sub_one_eq_mod, Nat.mod_self,
    beq_self_eq_true, if_true]

lemma next_seed_affStep (g : LCG) (hm : g.modulus = JAVA_RANDOM.modulus) (s : Nat) :
    g.next_seed s = affStep g.multiplier g.increment s := by
  unfold LCG.next_seed
  rw [JAVA_mod' g hm]
  show (g.multiplier * s % 2 ^ 64 + g.increment) % 2 ^ 64 % 2 ^ 48 = _
  rw [mod64_mod48]
  exact Nat.ModEq.add_right _ (mod64_mod48 _)

lemma combine_next_seed (k : Int) (s : Nat) :
    (JAVA_RANDOM.combine k).next_seed s = JSTEP^[pat64 k] (s % 2 ^ 48) := by
  rw [next_seed_affStep (JAVA_RANDOM.combine k) rfl]
  simp only [LCG.combine]
  rw [JAVA_mod' JAVA_RANDOM rfl, JAVA_mod' JAVA_RANDOM rfl,
    affStep_congr _ _ _ _ (Nat.mod_mod_of_dvd _ dvd_rfl) (Nat.mod_mod_of_dvd _ dvd_rfl) s,
    combineLoop_app 64 (pat64 k) 1 0 _ _ s (pat64_lt k)]
  show (affStep JAVA_RANDOM.multiplier JAVA_RANDOM.increment)^[pat64 k] (affStep 1 0 s) = _
  have h10 : affStep 1 0 s = s % 2 ^ 48 := by simp [affStep]
  rw [h10]
  rfl

lemma JSTEP_lt (s : Nat) : JSTEP s < 2 ^ 48 := Nat.mod_lt _ (by norm_num)

lemma JSTEP_iterate_lt (n s : Nat) (hs : s < 2 ^ 48) : JSTEP^[n] s < 2 ^ 48 := by
  induction n with
  | zero => simpa
  | succ n ih =>
    rw [Function.iterate_succ_apply']
    exact JSTEP_lt _

lemma affStep_sq48 (a c s : Nat) :
    affStep (a * a % 2 ^ 48) ((a + 1) * c % 2 ^ 48) s = affStep a c (affStep a c s) := by
  have h := affStep_comp a c a c s
  have h1 : affStep (a * a % 2 ^ 48) ((a + 1) * c % 2 ^ 48) s
      = affStep (a * a % 2 ^ 64) ((a * c % 2 ^ 64 + c) % 2 ^ 64) s := by
    refine affStep_congr _ _ _ _ ?_ ?_ s
    · rw [Nat.mod_mod_of_dvd _ dvd_rfl, mod64_mod48]
    · rw [Nat.mod_mod_of_dvd _ dvd_rfl, mod64_mod48]
      calc (a + 1) * c % 2 ^ 48 = (a * c + c) % 2 ^ 48 := by ring_nf
        _ = (a * c % 2 ^ 64 + c) % 2 ^ 48 := (Nat.ModEq.add_right c (mod64_mod48 _)).symm
  rw [h1, h]

lemma sqPair_iterate (j : Nat) (s : Nat) :
    affStep (sqPair^[j] (0x5DEECE66D, 0xB)).1 (sqPair^[j] (0x5DEECE66D, 0xB)).2 s
      = JSTEP^[2 ^ j] s := by
  induction j generalizing s with
  | zero => simp [JSTEP]
  | succ j ih =>
    have hrhs : JSTEP^[2 ^ (j + 1)] s
        = affStep (sqPair^[j] (0x5DEECE66D, 0xB)).1 (sqPair^[j] (0x5DEECE66D, 0xB)).2
          (affStep (sqPair^[j] (0x5DEECE66D, 0xB)).1 (sqPair^[j] (0x5DEECE66D, 0xB)).2 s) := by
      rw [ih, ih, pow_succ, mul_two, Function.iterate_add_apply]
    rw [hrhs, Function.iterate_succ_apply']
    exact affStep_sq48 _ _ s

lemma JSTEP_iterate_2pow64 (s : Nat) (hs : s < 2 ^ 48) : JSTEP^[2 ^ 64] s = s := by
  have h := sqPair_iterate 64 s
  have hval : sqPair^[64] (0x5DEECE66D, 0xB) = (1, 0) := by decide
  rw [hval] at h
  rw [← h]
  show (1 * s + 0) % 2 ^ 48 = s
  simpa using Nat.mod_eq_of_lt hs

lemma pat64_add_neg (k : Int) :
    pat64 k + pat64 (-k) = 0 ∨ pat64 k + pat64 (-k) = 2 ^ 64 := by
  unfold pat64
  have h1 := Int.emod_nonneg k (b := 2 ^ 64) (by norm_num)
  have h2 := Int.emod_lt_of_pos k (b := 2 ^ 64) (by norm_num)
  have h3 := Int.emod_nonneg (-k) (b := 2 ^ 64) (by norm_num)
  have h4 := Int.emod_lt_of_pos (-k) (b := 2 ^ 64) (by norm_num)
  have h5 : (k % 2 ^ 64 + -k % 2 ^ 64) % 2 ^ 64 = 0 := by
    rw [← Int.add_emod]
    simp
  omega

/-- C4.  LCG step-composition inverse round-trip: for every step count `k`
(any integer, in particular any signed 64-bit value, entering the squaring
loop through its logical bit pattern `pat64`) and every 48-bit seed `s`,
`JAVA_RANDOM.combine(k).next_seed(JAVA_RANDOM.combine(-k).next_seed(s)) = s`. -/
theorem lcg_combine_inverse_roundtrip (k : Int) (s : Nat) (hs : s < 2 ^ 48) :
    (JAVA_RANDOM.combine k).next_seed ((JAVA_RANDOM.combine (-k)).next_seed s) = s := by
  rw [combine_next_seed, combine_next_seed, Nat.mod_eq_of_lt hs,
    Nat.mod_eq_of_lt (JSTEP_iterate_lt _ _ hs), ← Function.iterate_add_apply]
  rcases pat64_add_neg k with h | h
  · have hk1 : pat64 k = 0 := by omega
    have hk2 : pat64 (-k) = 0 := by omega
    rw [hk1, hk2]
    simp
  · rw [h]
    exact JSTEP_iterate_2pow64 s hs

/-- Witness for C4 at `k = 5`, `s = 123`. -/
theorem lcg_combine_inverse_roundtrip_witness :
    (123 : Nat) < 2 ^ 48 ∧
      (JAVA_RANDOM.combine 5).next_seed ((JAVA_RANDOM.combine (-5)).next_seed 123) = 123 :=
  ⟨by norm_num, lcg_combine_inverse_roundtrip 5 123 (by norm_num)⟩

/-! ### C1: Stage-S per-candidate soundness -/

lemma iterate_two_apply {α : Type} (f : α → α) (x : α) : f^[2] x = f (f x) := by
  rw [Function.iterate_succ_apply, Function.iterate_one]

lemma shiftLeft_lor_eq_add (a b : Nat) (n : Nat) (hb : b < 2 ^ n) :
    a <<< n ||| b = 2 ^ n * a + b := by
  rw [Nat.shiftLeft_eq, Nat.mul_comm a (2 ^ n)]
  exact (Nat.mul_add_lt_is_or hb a).symm

lemma stageS_state_eq (p hi lo : Nat) (hp : p < 2 ^ 16) (hlo : lo < 2 ^ 16) :
    hi <<< 32 ||| p <<< 16 ||| lo = 2 ^ 16 * (2 ^ 16 * hi + p) + lo := by
  have hps : p <<< 16 = p * 2 ^ 16 := Nat.shiftLeft_eq p 16
  have h16 : (2 : Nat) ^ 16 = 65536 := by norm_num
  have h32 : (2 : Nat) ^ 32 = 4294967296 := by norm_num
  have hb1 : p <<< 16 < 2 ^ 32 := by
    rw [hps]
    omega
  have h1 : hi <<< 32 ||| p <<< 16 = 2 ^ 32 * hi + p <<< 16 :=
    shiftLeft_lor_eq_add hi _ 32 hb1
  have h2 : 2 ^ 32 * hi + p <<< 16 = 2 ^ 16 * (2 ^ 16 * hi + p) := by
    rw [hps]
    ring
  rw [h1, h2, ← Nat.mul_add_lt_is_or hlo (2 ^ 16 * hi + p)]

/-- C1.  Stage-S soundness: every candidate structure seed `ss` computed by
the per-candidate body of `StructureSeedSearcher::compute` satisfies:
advancing the Java LCG two steps from `ss ^ 0x5DEECE66D` yields a 48-bit
state whose bits `[16..32)` equal the pillar seed `p`.  The candidate index
`i ∈ [0, 2^32)` appears through its halves `state_hi = i >> 16` and
`state_lo = i & 0xFFFF`, exactly as the two nested loops enumerate them. -/
theorem stageS_candidate_soundness (p hi lo : Nat) (hp : p < 2 ^ 16)
    (hhi : hi < 2 ^ 16) (hlo : lo < 2 ^ 16) :
    JAVA_RANDOM.next_seed
        (JAVA_RANDOM.next_seed (stageSCandidate p hi lo ^^^ JAVA_RANDOM.multiplier))
        >>> 16 &&& 0xFFFF = p := by
  unfold stageSCandidate
  rw [Nat.xor_cancel_right]
  have h16 : (2 : Nat) ^ 16 = 65536 := by norm_num
  have h48 : (2 : Nat) ^ 48 = 281474976710656 := by norm_num
  have hstv : hi <<< 32 ||| p <<< 16 ||| lo = 2 ^ 16 * (2 ^ 16 * hi + p) + lo :=
    stageS_state_eq p hi lo hp hlo
  have hstlt : hi <<< 32 ||| p <<< 16 ||| lo < 2 ^ 48 := by
    rw [hstv]
    omega
  have hF : ∀ x, JAVA_RANDOM.next_seed x = JSTEP x := by
    intro x
    rw [next_seed_affStep JAVA_RANDOM rfl]
    rfl
  have hrev : JAVA_RANDOM_REV2.next_seed (hi <<< 32 ||| p <<< 16 ||| lo)
      = JSTEP^[pat64 (-2)] (hi <<< 32 ||| p <<< 16 ||| lo) := by
    show (JAVA_RANDOM.combine (-2)).next_seed _ = _
    rw [combine_next_seed, Nat.mod_eq_of_lt hstlt]
  rw [hrev, hF, hF]
  have hiter : JSTEP (JSTEP (JSTEP^[pat64 (-2)] (hi <<< 32 ||| p <<< 16 ||| lo)))
      = JSTEP^[2 + pat64 (-2)] (hi <<< 32 ||| p <<< 16 ||| lo) := by
    rw [Function.iterate_add_apply, iterate_two_apply]
  have hpat : 2 + pat64 (-2) = 2 ^ 64 := by
    have h : pat64 (-2) = 18446744073709551614 := by decide
    rw [h]
    norm_num
  rw [hiter, hpat, JSTEP_iterate_2pow64 _ hstlt, hstv]
  have hmask : (0xFFFF : Nat) = 2 ^ 16 - 1 := by norm_num
  rw [Nat.shiftRight_eq_div_pow, hmask, Nat.and_pow_two_sub_one_eq_mod]
  omega

/-- Witness for C1 at `p = 13847`, `hi = 5`, `lo = 7`. -/
theorem stageS_candidate_soundness_witness :
    (13847 : Nat) < 2 ^ 16 ∧ (5 : Nat) < 2 ^ 16 ∧ (7 : Nat) < 2 ^ 16 ∧
      JAVA_RANDOM.next_seed
          (JAVA_RANDOM.next_seed (stageSCandidate 13847 5 7 ^^^ JAVA_RANDOM.multiplier))
          >>> 16 &&& 0xFFFF = 13847 :=
  ⟨by norm_num, by norm_num, by norm_num,
    stageS_candidate_soundness 13847 5 7 (by norm_num) (by norm_num) (by norm_num)⟩

/-! ### C8: `next_long` bit-exactness -/

/-- C8.  `nextLong()` equals the first `nextInt()` shifted left 32 bits and
wrapping-added to the second, sign-extended `nextInt()`; the PRNG seeded with
`1` (scrambled as `(1 ^ 0x5DEECE66D) & (2^48 - 1)`) returns
`-4964420948893066024` from its first `nextLong()`. -/
theorem next_long_bit_exactness :
    (∀ r : JavaRandom,
      r.next_long.1 = wrap64 (r.next_int.1 * 2 ^ 32 + r.next_int.2.next_int.1))
    ∧ (JavaRandom.new 1).seed = (pat64 1 ^^^ 0x5DEECE66D) &&& (2 ^ 48 - 1)
    ∧ (JavaRandom.new 1).next_long.1 = -4964420948893066024 :=
  ⟨fun _ => rfl, by decide, by decide⟩

/-! ### C2: Stage-W random-mode soundness -/

lemma computeRandomCandidates_masked (ss : Nat) :
    ∀ v ∈ computeRandomCandidates ss, v &&& 0xFFFFFFFFFFFF = ss := by
  intro v hv
  simp only [computeRandomCandidates, List.mem_filterMap] at hv
  obtain ⟨a, _, ha⟩ := hv
  split at ha
  · next h =>
    obtain rfl : _ = v := Option.some_injective _ ha
    exact beq_iff_eq.mp h
  · exact absurd ha (by simp)

lemma dedupeGo_mem (check : Nat → Bool) (maxr : Nat) :
    ∀ rest tried ok v, v ∈ dedupeGo check maxr rest tried ok → v ∈ ok ∨ v ∈ rest := by
  intro rest
  induction rest with
  | nil =>
    intro tried ok v hv
    exact Or.inl hv
  | cons w rest ih =>
    intro tried ok v hv
    rw [dedupeGo] at hv
    split at hv
    · rcases ih _ _ _ hv with h | h
      · exact Or.inl h
      · exact Or.inr (List.mem_cons_of_mem w h)
    · split at hv
      · split at hv
        · rcases List.mem_append.mp hv with h | h
          · exact Or.inl h
          · exact Or.inr (List.mem_cons.mpr (Or.inl (List.mem_singleton.mp h)))
        · rcases ih _ _ _ hv with h | h
          · rcases List.mem_append.mp h with h' | h'
            · exact Or.inl h'
            · exact Or.inr (List.mem_cons.mpr (Or.inl (List.mem_singleton.mp h')))
          · exact Or.inr (List.mem_cons_of_mem w h)
      · rcases ih _ _ _ hv with h | h
        · exact Or.inl h
        · exact Or.inr (List.mem_cons_of_mem w h)

lemma dedupeGo_nodup (check : Nat → Bool) (maxr : Nat) :
    ∀ rest tried ok, ok.Nodup → (∀ x ∈ ok, x ∈ tried) →
      (dedupeGo check maxr rest tried ok).Nodup := by
  intro rest
  induction rest with
  | nil =>
    intro tried ok hok _
    exact hok
  | cons w rest ih =>
    intro tried ok hok hsub
    rw [dedupeGo]
    split
    · exact ih tried ok hok hsub
    · next hcont =>
      have hwnot : w ∉ tried := by
        intro hmem
        exact hcont (List.elem_iff.mpr hmem)
      have hwok : w ∉ ok := fun hmem => hwnot (hsub w hmem)
      have hok' : (ok ++ [w]).Nodup := by
        rw [List.nodup_append]
        refine ⟨hok, List.nodup_singleton w, ?_⟩
        intro x hx hx'
        rw [List.mem_singleton] at hx'
        subst hx'
        exact hwok hx
      split
      · split
        · exact hok'
        · refine ih (tried ++ [w]) (ok ++ [w]) hok' ?_
          intro x hx
          rcases List.mem_append.mp hx with h | h
          · exact List.mem_append.mpr (Or.inl (hsub x h))
          · exact List.mem_append.mpr (Or.inr h)
      · refine ih (tried ++ [w]) ok hok ?_
        intro x hx
        exact List.mem_append.mpr (Or.inl (hsub x hx))

/-- C2.  Stage-W random-mode soundness: every world seed returned by
`WorldSeedSearcher::compute_random` (for any structure seed, any external
data checks, and any result cap) has its low 48 bits — `ws mod 2^48` on the
bit pattern — equal to the structure seed, and the returned list contains no
duplicates. -/
theorem compute_random_sound (ss : Nat) (check : Nat → Bool) (maxr : Nat) :
    ((WorldSeedSearcher.compute_random ss check maxr).all
        (fun ws => ws % 2 ^ 48 == ss)) = true
    ∧ (WorldSeedSearcher.compute_random ss check maxr).Nodup := by
  constructor
  · rw [List.all_eq_true]
    intro ws hws
    rcases dedupeGo_mem check maxr _ _ _ _ hws with h | h
    · exact absurd h (List.not_mem_nil ws)
    · have hm := computeRandomCandidates_masked ss ws h
      have : (0xFFFFFFFFFFFF : Nat) = 2 ^ 48 - 1 := by norm_num
      rw [this, Nat.and_pow_two_sub_one_eq_mod] at hm
      exact beq_iff_eq.mpr hm
  · exact dedupeGo_nodup check maxr _ [] [] List.nodup_nil (by simp)

/-! ### C3: pillar layout bijection -/

lemma count_set_add {α : Type} [DecidableEq α] :
    ∀ (l : List α) (n : Nat) (b : α) (hn : n < l.length) (a : α),
      List.count a (l.set n b) + List.count a [l.get ⟨n, hn⟩]
        = List.count a l + List.count a [b] := by
  intro l
  induction l with
  | nil =>
    intro n b hn a
    simp at hn
  | cons x xs ih =>
    intro n b hn a
    cases n with
    | zero =>
      simp only [List.set, List.get, List.count_cons, List.count_nil, List.count_singleton]
      omega
    | succ n =>
      have h := ih n b (by simpa using hn) a
      simp only [List.set, List.get, List.count_cons, List.count_nil,
        List.count_singleton] at h ⊢
      omega

lemma listSwap_count {α : Type} [DecidableEq α] (l : List α) (i j : Nat) (a : α) :
    List.count a (listSwap l i j) = List.count a l := by
  unfold listSwap
  cases hi : l[i]? with
  | none => cases l[j]? <;> rfl
  | some x =>
    cases hj : l[j]? with
    | none => rfl
    | some y =>
      obtain ⟨hilt, hxi⟩ := List.getElem?_eq_some.mp hi
      obtain ⟨hjlt, hyj⟩ := List.getElem?_eq_some.mp hj
      show List.count a ((l.set i y).set j x) = _
      have hjlt' : j < (l.set i y).length := by
        rw [List.length_set]
        exact hjlt
      have h1 := count_set_add (l.set i y) j x hjlt' a
      have h2 := count_set_add l i y hilt a
      have hgi : l.get ⟨i, hilt⟩ = x := hxi
      have hgj : l.get ⟨j, hjlt⟩ = y := hyj
      by_cases hij : i = j
      · subst hij
        have hxy : x = y := by rw [← hgi, ← hgj]
        have hset : (l.set i y).get ⟨i, hjlt'⟩ = y := List.get_set_eq hjlt'
        rw [hset] at h1
        rw [hgi] at h2
        subst hxy
        omega
      · have hset : (l.set i y).get ⟨j, hjlt'⟩ = l.get ⟨j, hjlt⟩ :=
          List.get_set_ne hij hjlt'
        rw [hset, hgj] at h1
        rw [hgi] at h2
        omega

lemma listSwap_perm {α : Type} [DecidableEq α] (l : List α) (i j : Nat) :
    (listSwap l i j).Perm l := by
  rw [List.perm_iff_count]
  exact fun a => listSwap_count l i j a

lemma shuffleGo_perm {α : Type} [DecidableEq α] :
    ∀ (i : Nat) (l : List α) (r : JavaRandom), (shuffleGo l r i).1.Perm l := by
  intro i
  induction i using Nat.strong_induction_on with
  | _ i ih =>
    match i with
    | 0 =>
      intro l r
      exact List.Perm.refl l
    | 1 =>
      intro l r
      exact List.Perm.refl l
    | i + 2 =>
      intro l r
      rw [shuffleGo]
      exact (ih (i + 1) (by omega) _ _).trans (listSwap_perm _ _ _)

lemma shuffle_perm {α : Type} [DecidableEq α] (l : List α) (r : JavaRandom) :
    (shuffle l r).1.Perm l :=
  shuffleGo_perm l.length l r

/-- C3.  Pillar layout bijection: for every pillar seed in `[0, 2^16)` the ten
generated pillars have heights forming exactly the multiset
`{76, 79, 82, 85, 88, 91, 94, 97, 100, 103}`, and a pillar is caged exactly
when its shuffled index is 1 or 2, equivalently when its height is 79 or 82. -/
theorem pillar_layout_bijection (p : Int) (h0 : 0 ≤ p) (hp : p < 2 ^ 16) :
    (((EndPillars.from_seed p).map EndPillar.height : List Int) : Multiset Int)
        = ({76, 79, 82, 85, 88, 91, 94, 97, 100, 103} : Multiset Int)
    ∧ (EndPillars.from_seed p).length = 10
    ∧ (EndPillars.from_seed p).all
        (fun pl => (pl.caged == ((pl.index == 1) || (pl.index == 2)))
          && (pl.caged == ((pl.height == 79) || (pl.height == 82)))) = true := by
  have hperm : ((shuffle ([0, 1, 2, 3, 4, 5, 6, 7, 8, 9] : List Int) (JavaRandom.new p)).1).Perm
      ([0, 1, 2, 3, 4, 5, 6, 7, 8, 9] : List Int) := shuffle_perm _ _
  refine ⟨?_, ?_, ?_⟩
  · rw [EndPillars.from_seed, List.map_map]
    refine Eq.trans (Multiset.coe_eq_coe.mpr (hperm.map _)) ?_
    have hlist : List.map (EndPillar.height ∘ fun index =>
        { index := index, height := 76 + 3 * index, radius := 2 + index / 3,
          caged := index == 1 || index == 2 }) ([0, 1, 2, 3, 4, 5, 6, 7, 8, 9] : List Int)
        = [76, 79, 82, 85, 88, 91, 94, 97, 100, 103] := by decide
    rw [hlist]
    rfl
  · rw [EndPillars.from_seed, List.length_map]
    exact hperm.length_eq.trans rfl
  · rw [List.all_eq_true]
    intro pl hpl
    rw [EndPillars.from_seed] at hpl
    obtain ⟨idx, hidx, rfl⟩ := List.mem_map.mp hpl
    show ((idx == 1 || idx == 2) == ((idx == 1) || (idx == 2))
        && ((idx == 1 || idx == 2) == ((76 + 3 * idx == 79) || (76 + 3 * idx == 82)))) = true
    rw [Bool.and_eq_true, beq_iff_eq, beq_iff_eq]
    refine ⟨rfl, ?_⟩
    rw [Bool.eq_iff_iff]
    simp only [Bool.or_eq_true, beq_iff_eq]
    omega

/-- Witness for C3 at `p = 0`. -/
theorem pillar_layout_bijection_witness :
    (0 : Int) ≤ 0 ∧ (0 : Int) < 2 ^ 16 ∧
      ((((EndPillars.from_seed 0).map EndPillar.height : List Int) : Multiset Int)
          = ({76, 79, 82, 85, 88, 91, 94, 97, 100, 103} : Multiset Int)
        ∧ (EndPillars.from_seed 0).length = 10
        ∧ (EndPillars.from_seed 0).all
            (fun pl => (pl.caged == ((pl.index == 1) || (pl.index == 2)))
              && (pl.caged == ((pl.height == 79) || (pl.height == 82)))) = true) :=
  ⟨le_refl 0, by norm_num, pillar_layout_bijection 0 (le_refl 0) (by norm_num)⟩

/-! ### C10: `PillarMatchResult::compare` on two `PossibleMatch` values -/

/-- C10.  The comparator never returns `Greater` on two `PossibleMatch`
values: it returns `Equal` when the weights are equal and `Less` otherwise —
including when `w1 > w2` — so it does not order candidates by weight. -/
theorem compare_possible_never_greater (w1 w2 : ℚ) :
    PillarMatchResult.compare (.PossibleMatch w1) (.PossibleMatch w2)
      = if w1 = w2 then Ordering.eq else Ordering.lt := by
  show (if w1 < w2 then Ordering.lt else if w1 = w2 then Ordering.eq else Ordering.lt) = _
  by_cases h : w1 = w2
  · subst h
    simp
  · simp only [h, if_false]
    split <;> rfl

/-! ### C7: Stage-P driver output -/

/-- C7 counterexample: `seed_results` does not filter out `ImpossibleMatch`
entries.  For the observation whose first pillar has exact height 0 the very
first emitted pair is `(0, ImpossibleMatch)`. -/
theorem seed_results_contains_impossible :
    ((0 : Int), PillarMatchResult.ImpossibleMatch)
      ∈ PartialEndPillars.seed_results obsImpossible := by
  have h0 : PartialEndPillars.matches obsImpossible (EndPillars.from_seed ((0 : Nat) : Int))
      = PillarMatchResult.ImpossibleMatch := by decide
  rw [PartialEndPillars.seed_results]
  refine List.mem_map.mpr ⟨0, ?_, ?_⟩
  · rw [List.mem_range]
    norm_num
  · rw [h0]
    rfl

/-- C7 (amended).  Stage P emits the full unfiltered list: one pair per
pillar seed `s ∈ [0, 2^16)`, in increasing seed order, pairing each seed with
the match result of the layout generated from it — `ImpossibleMatch` entries
included (filtering and ranking are left to the callers). -/
theorem seed_results_full (obs : List PartialEndPillar) :
    (PartialEndPillars.seed_results obs).length = 65536
    ∧ ∀ s : Nat, (PartialEndPillars.seed_results obs)[s]?
        = if s < 65536 then
            some ((s : Int), PartialEndPillars.matches obs (EndPillars.from_seed (s : Int)))
          else none := by
  have hlen : (PartialEndPillars.seed_results obs).length = 65536 := by
    rw [PartialEndPillars.seed_results, List.length_map, List.length_range]
  refine ⟨hlen, ?_⟩
  intro s
  by_cases h : s < 65536
  · rw [if_pos h, PartialEndPillars.seed_results, List.getElem?_map, List.getElem?_range h]
    rfl
  · rw [if_neg h]
    refine List.getElem?_eq_none ?_
    omega

/-! ### C6: the `MediumSmall` hint admits height 97 -/

/-- C6 (code behavior at the failing input): the generated layout for pillar
seed 0 contains a pillar of height 97, and the `MediumSmall` observation
matches it with `PossibleMatch(0.1)` — not `ImpossibleMatch` — because the
code's guard is `height > 97` although its own comment and the spec put the
`MediumSmall` range at `[76, 94]`. -/
theorem mediumsmall_height97_not_impossible :
    ∃ pl ∈ EndPillars.from_seed 0, pl.height = 97 ∧
      PartialEndPillar.matches ⟨none, .MediumSmall⟩ pl
        = PillarMatchResult.PossibleMatch (1 / 10) := by
  refine ⟨⟨7, 97, 4, false⟩, by decide, rfl, ?_⟩
  simp only [PartialEndPillar.matches, PartialEndPillar.cageResult,
    PartialEndPillar.heightResult]
  norm_num [PillarMatchResult.combine]
  rw [show |(27 : ℚ) / 2| = 27 / 2 from abs_of_nonneg (by norm_num)]
  norm_num

/-- C9: refuted — the `Index not found` panic branch of
`LootPool::select_entry` is reachable on user input.  For the second pool of
the buried-treasure table (weights 20/10/5, quality 1 each), luck `-20`
drives every effective weight to `max(0, w + ⌊1·(-20)⌋) = 0`, so the
cumulative intervals are `[(0,0), (0,0), (0,0)]`, the total is `0`,
`next_bounded_int(0)` returns `0`, the comparator answers `Less` at every
index, and the binary search fails (`none`, the panic) for every PRNG
state. -/
theorem select_entry_index_not_found_reachable :
    ∃ pool ∈ get_loot_table.pools, ∀ rng : JavaRandom,
      pool.select_entry rng (-20) = none := by
  refine ⟨⟨.Uniform 5 8,
    [⟨20, 1, 64, 2, [.SetCount (.Uniform 1 4)]⟩,
     ⟨10, 1, 64, 3, [.SetCount (.Uniform 1 4)]⟩,
     ⟨5, 1, 64, 4, [.SetCount (.Uniform 1 2)]⟩]⟩, by simp [get_loot_table], fun rng => ?_⟩
  have hfl : (⌊(-20 : ℚ)⌋ : Int) = -20 := by norm_num
  have h20 : (⟨20, 1, 64, 2, [.SetCount (.Uniform 1 4)]⟩ :
      ItemLootPoolEntry).get_weight (-20) = 0 := by
    simp [ItemLootPoolEntry.get_weight, satI32, hfl]
  have h10 : (⟨10, 1, 64, 3, [.SetCount (.Uniform 1 4)]⟩ :
      ItemLootPoolEntry).get_weight (-20) = 0 := by
    simp [ItemLootPoolEntry.get_weight, satI32, hfl]
  have h5 : (⟨5, 1, 64, 4, [.SetCount (.Uniform 1 2)]⟩ :
      ItemLootPoolEntry).get_weight (-20) = 0 := by
    simp [ItemLootPoolEntry.get_weight, satI32, hfl]
  simp [LootPool.select_entry, buildTotals, totalWeight, h20, h10, h5,
    JavaRandom.next_bounded_int, binarySearchBy, bsearchGo, cmpInterval]

/-! ## Loot generation: output ranges and stack goodness -/

lemma toI32_id (x : Int) (h0 : 0 ≤ x) (h1 : x < 2 ^ 31) : toI32 x = x := by
  unfold toI32
  rw [Int.emod_eq_of_lt (by omega) (by omega)]
  omega

lemma next31_spec (r : JavaRandom) :
    0 ≤ (r.next 31).1 ∧ (r.next 31).1 < 2 ^ 31 := by
  have h48 : JAVA_RANDOM.next_seed r.seed < 2 ^ 48 := by
    rw [next_seed_affStep JAVA_RANDOM rfl]; exact JSTEP_lt r.seed
  have hsh : JAVA_RANDOM.next_seed r.seed >>> (48 - 31) < 2 ^ 31 := by
    rw [Nat.shiftRight_eq_div_pow]
    refine Nat.div_lt_of_lt_mul ?_
    calc JAVA_RANDOM.next_seed r.seed < 2 ^ 48 := h48
      _ = 2 ^ 31 * 2 ^ (48 - 31) := by norm_num
  have h0 : (0 : Int) ≤ ((JAVA_RANDOM.next_seed r.seed >>> (48 - 31) : Nat) : Int) :=
    Int.natCast_nonneg _
  have h1 : ((JAVA_RANDOM.next_seed r.seed >>> (48 - 31) : Nat) : Int) < 2 ^ 31 := by
    exact_mod_cast hsh
  simp only [JavaRandom.next]
  rw [toI32_id _ h0 h1]
  exact ⟨h0, h1⟩

lemma nextBoundedLoop_range (bound maxTry : Int) (hb : 0 < bound) (fuel : Nat) :
    ∀ r, 0 ≤ (nextBoundedLoop bound maxTry r fuel).1 ∧
      (nextBoundedLoop bound maxTry r fuel).1 < bound := by
  induction fuel with
  | zero =>
    intro r
    exact ⟨Int.emod_nonneg _ (by omega), Int.emod_lt_of_pos _ hb⟩
  | succ n ih =>
    intro r
    simp only [nextBoundedLoop]
    split
    · exact ⟨Int.emod_nonneg _ (by omega), Int.emod_lt_of_pos _ hb⟩
    · exact ih _

lemma next_bounded_int_range (r : JavaRandom) (bound : Int) (hb : 0 < bound) :
    0 ≤ (r.next_bounded_int bound).1 ∧ (r.next_bounded_int bound).1 < bound := by
  unfold JavaRandom.next_bounded_int
  rw [if_neg (by omega)]
  split
  · obtain ⟨h0, h1⟩ := next31_spec r
    constructor
    · exact Int.ediv_nonneg (mul_nonneg hb.le h0) (by norm_num)
    · exact Int.ediv_lt_of_lt_mul (by norm_num) (mul_lt_mul_of_pos_left h1 hb)
  · exact nextBoundedLoop_range _ _ hb _ r

lemma range_apply_bounds (a b : Int) (rng : JavaRandom) (hab : a ≤ b) :
    a ≤ ((LootTableRange.Uniform a b).apply rng).1 ∧
      ((LootTableRange.Uniform a b).apply rng).1 ≤ b := by
  simp only [LootTableRange.apply]
  split
  · exact ⟨le_refl a, hab⟩
  · next h =>
    have hb : (0 : Int) < b - a + 1 := by omega
    obtain ⟨h0, h1⟩ := next_bounded_int_range rng (b - a + 1) hb
    constructor <;> omega

lemma generate_good (e : ItemLootPoolEntry) (rng : JavaRandom)
    (he : goodEntryB e = true) : goodStack (e.generate_raw_loot rng).1 := by
  unfold goodEntryB at he
  rw [Bool.and_eq_true, decide_eq_true_eq] at he
  obtain ⟨hi, hf⟩ := he
  unfold ItemLootPoolEntry.generate_raw_loot
  rcases hfs : e.functions with _ | ⟨f, rest⟩
  · rw [hfs] at hf
    simp only [goodFns, decide_eq_true_eq] at hf
    simp only [applyFns]
    show 0 ≤ (1 : Int) ∧ (1 : Int) ≤ e.stack_size ∧ (0 : Int) < e.stack_size ∧ e.item < 12
    exact ⟨by norm_num, hf, by omega, hi⟩
  · rw [hfs] at hf
    rcases f with ⟨range⟩ | ⟨enchs⟩
    · rcases range with ⟨a, b⟩ | ⟨v⟩
      · rcases rest with _ | ⟨f2, rest2⟩
        · simp only [goodFns, Bool.and_eq_true, decide_eq_true_eq] at hf
          obtain ⟨⟨ha, hab⟩, hbs⟩ := hf
          obtain ⟨hl, hu⟩ := range_apply_bounds a b rng hab
          simp only [applyFns, LootFunction.apply]
          show 0 ≤ ((LootTableRange.Uniform a b).apply rng).1 ∧
            ((LootTableRange.Uniform a b).apply rng).1 ≤ e.stack_size ∧
            (0 : Int) < e.stack_size ∧ e.item < 12
          exact ⟨by omega, by omega, by omega, hi⟩
        · simp [goodFns] at hf
      · simp [goodFns] at hf
    · simp [goodFns] at hf

lemma select_entry_mem (pool : LootPool) (rng : JavaRandom) (luck : ℚ)
    (e : ItemLootPoolEntry) (r' : JavaRandom)
    (h : pool.select_entry rng luck = some (e, r')) : e ∈ pool.entries := by
  rcases hes : pool.entries with _ | ⟨e1, _ | ⟨e2, rest⟩⟩ <;>
    simp only [LootPool.select_entry, hes] at h
  · simp [binarySearchBy, bsearchGo, buildTotals] at h
  · cases h
    exact List.mem_cons_self _ _
  · rcases hbs : binarySearchBy (buildTotals (e1 :: e2 :: rest) luck 0)
        ((rng.next_bounded_int (totalWeight (e1 :: e2 :: rest) luck)).1) with _ | idx <;>
      simp only [hbs] at h
    · exact Option.noConfusion h
    · rcases hge : (e1 :: e2 :: rest)[idx]? with _ | e3 <;> simp only [hge] at h
      · exact Option.noConfusion h
      · cases h
        exact List.getElem?_mem hge

/-- The upper bound of a roll range. -/
def rollsMax : LootTableRange → Int
  | .Uniform a b => max a b
  | .Constant v => v

lemma range_apply_le_rollsMax (range : LootTableRange) (rng : JavaRandom) :
    (range.apply rng).1 ≤ rollsMax range := by
  rcases range with ⟨a, b⟩ | ⟨v⟩
  · simp only [LootTableRange.apply, rollsMax]
    split
    · exact le_max_left a b
    · next h =>
      have hb : (0 : Int) < b - a + 1 := by omega
      obtain ⟨h0, h1⟩ := next_bounded_int_range rng (b - a + 1) hb
      have : (rng.next_bounded_int (b - a + 1)).1 + a ≤ b := by omega
      exact le_trans this (le_max_right a b)
  · exact le_refl v

lemma poolRollsGo_spec (pool : LootPool) (luck : ℚ)
    (hp : ∀ e ∈ pool.entries, goodEntryB e = true) :
    ∀ n rng items r', poolRollsGo pool luck n rng = some (items, r') →
      items.length = n ∧ ∀ x ∈ items, goodStack x := by
  intro n
  induction n with
  | zero =>
    intro rng items r' h
    simp only [poolRollsGo, Option.some_inj, Prod.mk.injEq] at h
    rw [← h.1]
    exact ⟨rfl, by intro x hx; simp at hx⟩
  | succ n ih =>
    intro rng items r' h
    rw [poolRollsGo] at h
    rcases hse : pool.select_entry rng luck with _ | ⟨e, r1⟩ <;> simp only [hse] at h
    · exact Option.noConfusion h
    · rcases hrec : poolRollsGo pool luck n (e.generate_raw_loot r1).2 with _ | ⟨rest, r3⟩ <;>
        simp only [hrec] at h
      · exact Option.noConfusion h
      · simp only [Option.some_inj, Prod.mk.injEq] at h
        obtain ⟨hlen, hgood⟩ := ih _ _ _ hrec
        rw [← h.1]
        refine ⟨by simp [hlen], ?_⟩
        intro x hx
        rcases List.mem_cons.mp hx with h1 | h2
        · rw [h1]
          exact generate_good e r1 (hp e (select_entry_mem _ _ _ _ _ hse))
        · exact hgood x h2

lemma tableRawGo_spec (luck : ℚ) :
    ∀ pools : List LootPool, ∀ rng raw r',
      (∀ pool ∈ pools, ∀ e ∈ pool.entries, goodEntryB e = true) →
      tableRawGo luck pools rng = some (raw, r') →
      (∀ x ∈ raw, goodStack x) ∧
        (raw.length : Int) ≤ (pools.map (fun p => max (rollsMax p.rolls) 0)).sum := by
  intro pools
  induction pools with
  | nil =>
    intro rng raw r' _ h
    simp only [tableRawGo, Option.some_inj, Prod.mk.injEq] at h
    rw [← h.1]
    exact ⟨by intro x hx; simp at hx, by simp⟩
  | cons p ps ih =>
    intro rng raw r' hgood h
    rw [tableRawGo] at h
    rcases hpg : p.generate_raw_loot rng luck with _ | ⟨items, r1⟩ <;> simp only [hpg] at h
    · exact Option.noConfusion h
    · rcases hrec : tableRawGo luck ps r1 with _ | ⟨rest, r2⟩ <;> simp only [hrec] at h
      · exact Option.noConfusion h
      · simp only [Option.some_inj, Prod.mk.injEq] at h
        unfold LootPool.generate_raw_loot at hpg
        obtain ⟨hlen, hone⟩ := poolRollsGo_spec p luck
          (hgood p (List.mem_cons_self _ _)) _ _ _ _ hpg
        obtain ⟨hrest, hlrest⟩ := ih _ _ _ (fun q hq => hgood q (List.mem_cons_of_mem _ hq)) hrec
        rw [← h.1]
        constructor
        · intro x hx
          rcases List.mem_append.mp hx with h1 | h2
          · exact hone x h1
          · exact hrest x h2
        · have h1 : (items.length : Int) ≤ max (rollsMax p.rolls) 0 := by
            rw [hlen, Int.toNat_eq_max]
            exact max_le_max (range_apply_le_rollsMax p.rolls rng) (le_refl 0)
          simp only [List.length_append, List.map_cons, List.sum_cons]
          push_cast
          omega

/-! ## Count bookkeeping through `divide` and `shuffle_loot` -/

lemma sumId_append (i : Nat) (a b : List ItemStack) :
    sumId i (a ++ b) = sumId i a + sumId i b := by
  induction a with
  | nil => simp [sumId]
  | cons x xs ih => simp only [List.cons_append, sumId, List.append_eq, ih]; ring

lemma totalCount_append (a b : List ItemStack) :
    totalCount (a ++ b) = totalCount a + totalCount b := by
  induction a with
  | nil => simp [totalCount]
  | cons x xs ih => simp only [List.cons_append, totalCount, List.append_eq, ih]; ring

lemma sumId_perm (i : Nat) {a b : List ItemStack} (h : a.Perm b) :
    sumId i a = sumId i b := by
  induction h with
  | nil => rfl
  | cons x _ ih => simp only [sumId, ih]
  | swap x y l => simp only [sumId]; ring
  | trans _ _ ih1 ih2 => rw [ih1, ih2]

lemma totalCount_perm {a b : List ItemStack} (h : a.Perm b) :
    totalCount a = totalCount b := by
  induction h with
  | nil => rfl
  | cons x _ ih => simp only [totalCount, ih]
  | swap x y l => simp only [totalCount]; ring
  | trans _ _ ih1 ih2 => rw [ih1, ih2]

lemma sumId_nonneg (i : Nat) (l : List ItemStack) (h : ∀ x ∈ l, 0 ≤ x.count) :
    0 ≤ sumId i l := by
  induction l with
  | nil => simp [sumId]
  | cons x xs ih =>
    simp only [sumId]
    refine add_nonneg ?_ (ih (fun y hy => h y (List.mem_cons_of_mem _ hy)))
    split
    · exact h x (List.mem_cons_self _ _)
    · exact le_refl 0

lemma totalCount_nonneg (l : List ItemStack) (h : ∀ x ∈ l, 0 ≤ x.count) :
    0 ≤ totalCount l := by
  induction l with
  | nil => simp [totalCount]
  | cons x xs ih =>
    simp only [totalCount]
    exact add_nonneg (h x (List.mem_cons_self _ _))
      (ih (fun y hy => h y (List.mem_cons_of_mem _ hy)))

lemma sumId_eraseIdx (i : Nat) (l : List ItemStack) (j : Nat) (hj : j < l.length) :
    sumId i (l.eraseIdx j) +
      (if (l.get ⟨j, hj⟩).item = i then (l.get ⟨j, hj⟩).count else 0) = sumId i l := by
  induction l generalizing j with
  | nil => simp at hj
  | cons x xs ih =>
    cases j with
    | zero => simp only [List.eraseIdx, List.get, sumId]; ring
    | succ j =>
      simp only [List.eraseIdx, List.get, sumId]
      rw [← ih j (by simpa using Nat.lt_of_succ_lt_succ hj)]
      ring

lemma totalCount_eraseIdx (l : List ItemStack) (j : Nat) (hj : j < l.length) :
    totalCount (l.eraseIdx j) + (l.get ⟨j, hj⟩).count = totalCount l := by
  induction l generalizing j with
  | nil => simp at hj
  | cons x xs ih =>
    cases j with
    | zero => simp only [List.eraseIdx, List.get, totalCount]; ring
    | succ j =>
      simp only [List.eraseIdx, List.get, totalCount]
      rw [← ih j (by simpa using Nat.lt_of_succ_lt_succ hj)]
      ring

lemma mem_eraseIdx {x : ItemStack} {l : List ItemStack} {j : Nat}
    (h : x ∈ l.eraseIdx j) : x ∈ l := by
  induction l generalizing j with
  | nil => simp [List.eraseIdx] at h
  | cons y ys ih =>
    cases j with
    | zero => exact List.mem_cons_of_mem _ h
    | succ j =>
      rcases List.mem_cons.mp h with h1 | h2
      · rw [h1]; exact List.mem_cons_self _ _
      · exact List.mem_cons_of_mem _ (ih h2)

lemma divideOne_single (x : ItemStack) (h1 : x.count ≤ x.max_count) :
    divideOne x = [x] := by
  unfold divideOne
  rcases lt_or_eq_of_le h1 with hlt | heq
  · rw [if_pos hlt]
  · rw [if_neg (by omega), heq, Int.tmod_self]
    rw [if_neg (by omega)]
    congr 1
    cases x
    simp_all

lemma divideList_eq (l : List ItemStack) (h : ∀ x ∈ l, x.count ≤ x.max_count) :
    divideList l = l := by
  induction l with
  | nil => rfl
  | cons x xs ih =>
    rw [divideList, divideOne_single x (h x (List.mem_cons_self _ _)),
      ih (fun y hy => h y (List.mem_cons_of_mem _ hy))]
    rfl

lemma phase1_sumId (i : Nat) (l : List ItemStack) :
    sumId i (shuffleLootPhase1 l).1 + sumId i (shuffleLootPhase1 l).2 = sumId i l := by
  induction l with
  | nil => simp [shuffleLootPhase1, sumId]
  | cons x xs ih =>
    simp only [shuffleLootPhase1]
    split
    · next h =>
      have hc : x.count = 0 := by simpa using h
      simp only [sumId, hc, ih]
      split <;> ring
    · split
      · simp only [sumId]
        rw [← ih]; ring
      · simp only [sumId]
        rw [← ih]; ring

lemma phase1_totalCount (l : List ItemStack) :
    totalCount (shuffleLootPhase1 l).1 + totalCount (shuffleLootPhase1 l).2 = totalCount l := by
  induction l with
  | nil => simp [shuffleLootPhase1, totalCount]
  | cons x xs ih =>
    simp only [shuffleLootPhase1]
    split
    · next h =>
      have hc : x.count = 0 := by simpa using h
      simp only [totalCount, hc, ih]
      ring
    · split
      · simp only [totalCount]
        rw [← ih]; ring
      · simp only [totalCount]
        rw [← ih]; ring

lemma phase1_len (l : List ItemStack) :
    (shuffleLootPhase1 l).1.length + (shuffleLootPhase1 l).2.length ≤ l.length := by
  induction l with
  | nil => simp [shuffleLootPhase1]
  | cons x xs ih =>
    simp only [shuffleLootPhase1]
    split
    · simp only [List.length_cons]
      omega
    · split <;> (simp only [List.length_cons]; omega)

lemma phase1_mem (l : List ItemStack) (x : ItemStack)
    (h : x ∈ (shuffleLootPhase1 l).1 ∨ x ∈ (shuffleLootPhase1 l).2) : x ∈ l := by
  induction l with
  | nil => simp [shuffleLootPhase1] at h
  | cons y ys ih =>
    simp only [shuffleLootPhase1] at h
    split at h
    · exact List.mem_cons_of_mem _ (ih h)
    · split at h <;> dsimp only at h
      · rcases h with h | h
        · exact List.mem_cons_of_mem _ (ih (Or.inl h))
        · rcases List.mem_cons.mp h with h1 | h2
          · rw [h1]; exact List.mem_cons_self _ _
          · exact List.mem_cons_of_mem _ (ih (Or.inr h2))
      · rcases h with h | h
        · rcases List.mem_cons.mp h with h1 | h2
          · rw [h1]; exact List.mem_cons_self _ _
          · exact List.mem_cons_of_mem _ (ih (Or.inl h2))
        · exact List.mem_cons_of_mem _ (ih (Or.inr h))

lemma pushPiece_spec (st : ItemStack) (moved loot : List ItemStack) (rng : JavaRandom)
    (m1 l1 : List ItemStack) (r1 : JavaRandom)
    (h : pushPiece st moved loot rng = (m1, l1, r1)) :
    (∀ i, sumId i m1 + sumId i l1 =
      sumId i moved + sumId i loot + (if st.item = i then st.count else 0)) ∧
    totalCount m1 + totalCount l1 = totalCount moved + totalCount loot + st.count ∧
    m1.length + l1.length = moved.length + loot.length + 1 ∧
    (∀ x, (x ∈ m1 ∨ x ∈ l1) → x ∈ moved ∨ x ∈ loot ∨ x = st) := by
  unfold pushPiece at h
  split at h
  · split at h <;> cases h
    · refine ⟨fun i => ?_, ?_, ?_, fun x hx => ?_⟩
      · rw [sumId_append]; simp only [sumId]; ring
      · rw [totalCount_append]; simp only [totalCount]; ring
      · simp only [List.length_append, List.length_singleton]; omega
      · rcases hx with hx | hx
        · rcases List.mem_append.mp hx with h1 | h1
          · exact Or.inl h1
          · exact Or.inr (Or.inr (by simpa using h1))
        · exact Or.inr (Or.inl hx)
    · refine ⟨fun i => ?_, ?_, ?_, fun x hx => ?_⟩
      · rw [sumId_append]; simp only [sumId]; ring
      · rw [totalCount_append]; simp only [totalCount]; ring
      · simp only [List.length_append, List.length_singleton]; omega
      · rcases hx with hx | hx
        · exact Or.inl hx
        · rcases List.mem_append.mp hx with h1 | h1
          · exact Or.inr (Or.inl h1)
          · exact Or.inr (Or.inr (by simpa using h1))
  · cases h
    refine ⟨fun i => ?_, ?_, ?_, fun x hx => ?_⟩
    · rw [sumId_append]; simp only [sumId]; ring
    · rw [totalCount_append]; simp only [totalCount]; ring
    · simp only [List.length_append, List.length_singleton]; omega
    · rcases hx with hx | hx
      · exact Or.inl hx
      · rcases List.mem_append.mp hx with h1 | h1
        · exact Or.inr (Or.inl h1)
        · exact Or.inr (Or.inr (by simpa using h1))

lemma shuffleLootSplit_spec (fs : Nat) (fuel : Nat) :
    ∀ moved loot rng m' l' r',
      shuffleLootSplit fs fuel moved loot rng = some (m', l', r') →
      (∀ i, sumId i m' + sumId i l' = sumId i moved + sumId i loot) ∧
      (totalCount m' + totalCount l' = totalCount moved + totalCount loot) ∧
      (m'.length + l'.length ≤ max (moved.length + loot.length) fs) ∧
      (∀ x, (x ∈ m' ∨ x ∈ l') → ∃ y, (y ∈ moved ∨ y ∈ loot) ∧ x.item = y.item) := by
  induction fuel with
  | zero =>
    intro moved loot rng m' l' r' h
    simp only [shuffleLootSplit] at h
    cases h
    exact ⟨fun i => rfl, rfl, le_max_left _ _, fun x hx => ⟨x, hx, rfl⟩⟩
  | succ fuel ih =>
    intro moved loot rng m' l' r' h
    rw [shuffleLootSplit] at h
    split at h
    · next hcond =>
      rcases hms : moved[((Math.next_int rng 0 ((moved.length : Int) - 1)).1).toNat]?
          with _ | stack <;> simp only [hms] at h
      · exact Option.noConfusion h
      · obtain ⟨hjlt, hjv⟩ := List.getElem?_eq_some.mp hms
        have hget : moved.get ⟨((Math.next_int rng 0 ((moved.length : Int) - 1)).1).toNat,
            hjlt⟩ = stack := hjv
        rcases hP1 : pushPiece
            ((stack.split ((Math.next_int
              (Math.next_int rng 0 ((moved.length : Int) - 1)).2 1
              (stack.count.tdiv 2)).1)).2)
            (moved.eraseIdx ((Math.next_int rng 0 ((moved.length : Int) - 1)).1).toNat)
            loot
            ((Math.next_int (Math.next_int rng 0 ((moved.length : Int) - 1)).2 1
              (stack.count.tdiv 2)).2) with ⟨m1, l1, r1⟩
        rcases hP2 : pushPiece
            ((stack.split ((Math.next_int
              (Math.next_int rng 0 ((moved.length : Int) - 1)).2 1
              (stack.count.tdiv 2)).1)).1) m1 l1 r1 with ⟨m2, l2, r2⟩
        simp only [hP1, hP2] at h
        obtain ⟨hs1, ht1, hl1, hm1⟩ := pushPiece_spec _ _ _ _ _ _ _ hP1
        obtain ⟨hs2, ht2, hl2, hm2⟩ := pushPiece_spec _ _ _ _ _ _ _ hP2
        obtain ⟨hs, ht, hl, hm⟩ := ih _ _ _ _ _ _ h
        have hpiece : ((stack.split ((Math.next_int
            (Math.next_int rng 0 ((moved.length : Int) - 1)).2 1
            (stack.count.tdiv 2)).1)).1).count +
            ((stack.split ((Math.next_int
            (Math.next_int rng 0 ((moved.length : Int) - 1)).2 1
            (stack.count.tdiv 2)).1)).2).count = stack.count := by
          simp only [ItemStack.split]
          omega
        have hitem1 : ((stack.split ((Math.next_int
            (Math.next_int rng 0 ((moved.length : Int) - 1)).2 1
            (stack.count.tdiv 2)).1)).1).item = stack.item := rfl
        have hitem2 : ((stack.split ((Math.next_int
            (Math.next_int rng 0 ((moved.length : Int) - 1)).2 1
            (stack.count.tdiv 2)).1)).2).item = stack.item := rfl
        have hlen_erase : (moved.eraseIdx
            ((Math.next_int rng 0 ((moved.length : Int) - 1)).1).toNat).length =
            moved.length - 1 := by
          rw [List.length_eraseIdx]
          simp [hjlt]
        refine ⟨fun i => ?_, ?_, ?_, fun x hx => ?_⟩
        · have he := sumId_eraseIdx i moved _ hjlt
          rw [hget] at he
          have hs1' := hs1 i
          have hs2' := hs2 i
          rw [hitem1] at hs2'
          rw [hitem2] at hs1'
          have hif : (if stack.item = i then ((stack.split ((Math.next_int
              (Math.next_int rng 0 ((moved.length : Int) - 1)).2 1
              (stack.count.tdiv 2)).1)).1).count else 0) +
              (if stack.item = i then ((stack.split ((Math.next_int
              (Math.next_int rng 0 ((moved.length : Int) - 1)).2 1
              (stack.count.tdiv 2)).1)).2).count else 0) =
              (if stack.item = i then stack.count else 0) := by
            split <;> omega
          rw [hs i]
          omega
        · have he := totalCount_eraseIdx moved _ hjlt
          rw [hget] at he
          rw [ht]
          omega
        · have hcap : m2.length + l2.length ≤ fs := by omega
          calc m'.length + l'.length ≤ max (m2.length + l2.length) fs := hl
            _ = fs := max_eq_right hcap
            _ ≤ max (moved.length + loot.length) fs := le_max_right _ _
        · obtain ⟨y, hy, hxy⟩ := hm x hx
          have hstackmem : stack ∈ moved := List.getElem?_mem hms
          rcases hm2 y hy with hA | hA | hA
          · rcases hm1 y (Or.inl hA) with hB | hB | hB
            · exact ⟨y, Or.inl (mem_eraseIdx hB), hxy⟩
            · exact ⟨y, Or.inr hB, hxy⟩
            · exact ⟨stack, Or.inl hstackmem, by rw [hxy, hB, hitem2]⟩
          · rcases hm1 y (Or.inr hA) with hB | hB | hB
            · exact ⟨y, Or.inl (mem_eraseIdx hB), hxy⟩
            · exact ⟨y, Or.inr hB, hxy⟩
            · exact ⟨stack, Or.inl hstackmem, by rw [hxy, hB, hitem2]⟩
          · exact ⟨stack, Or.inl hstackmem, by rw [hxy, hA, hitem1]⟩
    · cases h
      exact ⟨fun i => rfl, rfl, le_max_left _ _, fun x hx => ⟨x, hx, rfl⟩⟩

lemma shuffle_loot_spec (dl : List ItemStack) (fs : Nat) (rng : JavaRandom)
    (l2 : List ItemStack) (r' : JavaRandom)
    (h : LootTable.shuffle_loot dl fs rng = some (l2, r')) :
    (∀ i, sumId i l2 = sumId i dl) ∧ totalCount l2 = totalCount dl ∧
    l2.length ≤ max dl.length fs ∧ (∀ x ∈ l2, ∃ y ∈ dl, x.item = y.item) := by
  unfold LootTable.shuffle_loot at h
  rcases hsp : shuffleLootSplit fs (fs + 1) (shuffleLootPhase1 dl).2 (shuffleLootPhase1 dl).1 rng
      with _ | ⟨m', l', r1⟩ <;> simp only [hsp] at h
  · exact Option.noConfusion h
  · injection h with h2
    have hl2 : (shuffle (l' ++ m') r1).1 = l2 := congrArg Prod.fst h2
    have hperm : (shuffle (l' ++ m') r1).1.Perm (l' ++ m') := shuffle_perm _ _
    rw [hl2] at hperm
    obtain ⟨hs, ht, hlen, hmem⟩ := shuffleLootSplit_spec fs (fs + 1) _ _ _ _ _ _ hsp
    refine ⟨fun i => ?_, ?_, ?_, fun x hx => ?_⟩
    · rw [sumId_perm i hperm, sumId_append]
      have := phase1_sumId i dl
      have := hs i
      omega
    · rw [totalCount_perm hperm, totalCount_append]
      have := phase1_totalCount dl
      omega
    · have h1 : l2.length = l'.length + m'.length := by
        rw [hperm.length_eq, List.length_append]
      have h2 := phase1_len dl
      have h3 : max ((shuffleLootPhase1 dl).2.length + (shuffleLootPhase1 dl).1.length) fs ≤
          max dl.length fs := max_le_max (by omega) (le_refl fs)
      omega
    · have hx2 : x ∈ l' ++ m' := hperm.mem_iff.mp hx
      rcases List.mem_append.mp hx2 with h1 | h1
      · obtain ⟨y, hy, hxy⟩ := hmem x (Or.inr h1)
        exact ⟨y, phase1_mem dl y (Or.symm hy), hxy⟩
      · obtain ⟨y, hy, hxy⟩ := hmem x (Or.inl h1)
        exact ⟨y, phase1_mem dl y (Or.symm hy), hxy⟩

/-! ## Chest placement bookkeeping -/

lemma getD_set_eq {α : Type} (l : List α) (n : Nat) (v d : α) (h : n < l.length) :
    (l.set n v).getD n d = v := by
  induction l generalizing n with
  | nil => simp at h
  | cons x xs ih =>
    cases n with
    | zero => rfl
    | succ n => exact ih n (by simpa using Nat.lt_of_succ_lt_succ h)

lemma getD_set_ne {α : Type} (l : List α) (m n : Nat) (v d : α) (h : m ≠ n) :
    (l.set m v).getD n d = l.getD n d := by
  induction l generalizing m n with
  | nil => rfl
  | cons x xs ih =>
    cases m with
    | zero => cases n with
      | zero => exact absurd rfl h
      | succ n => rfl
    | succ m => cases n with
      | zero => rfl
      | succ n => exact ih m n (fun hc => h (by rw [hc]))

lemma sum_map_set_getD {α : Type} (f : α → Int) (l : List α) (n : Nat) (v d : α)
    (h : n < l.length) :
    ((l.set n v).map f).sum + f (l.getD n d) = (l.map f).sum + f v := by
  induction l generalizing n with
  | nil => simp at h
  | cons x xs ih =>
    cases n with
    | zero => simp only [List.set, List.map_cons, List.sum_cons, List.getD_cons_zero]; ring
    | succ n =>
      simp only [List.set, List.map_cons, List.sum_cons, List.getD_cons_succ]
      have := ih n (by simpa using Nat.lt_of_succ_lt_succ h)
      omega

lemma getD_mem {α : Type} (l : List α) (n : Nat) (d : α) (h : n < l.length) :
    l.getD n d ∈ l := by
  rw [List.getD_eq_getElem?_getD, List.getElem?_eq_getElem h]
  exact List.getElem_mem h

lemma chestShape_new : chestShape SingleChest.new := by
  constructor
  · rfl
  · intro row hrow
    rw [List.eq_of_mem_replicate hrow]
    rfl

lemma set_item_oob (c : SingleChest) (s : Int) (v : Option ItemStack)
    (h : s < 0 ∨ s ≥ 27) : c.set_item s v = c := by
  unfold SingleChest.set_item
  rw [if_pos h]

lemma set_item_rows (c : SingleChest) (s : Int) (v : Option ItemStack)
    (h0 : 0 ≤ s) (h1 : s < 27) :
    (c.set_item s v).rows =
      c.rows.set (s.toNat / 9) ((c.rows.getD (s.toNat / 9) []).set (s.toNat % 9) v) := by
  unfold SingleChest.set_item
  rw [if_neg (by omega)]

lemma get_item_getD (c : SingleChest) (s : Int) (h0 : 0 ≤ s) (h1 : s < 27) :
    c.get_item s = (c.rows.getD (s.toNat / 9) []).getD (s.toNat % 9) none := by
  unfold SingleChest.get_item SingleChest.get_slot
  rw [if_neg (by omega)]

lemma set_item_shape (c : SingleChest) (s : Int) (v : Option ItemStack)
    (hc : chestShape c) : chestShape (c.set_item s v) := by
  rcases le_or_lt 0 s with h0 | h0
  · rcases lt_or_le s 27 with h1 | h1
    · rw [show c.set_item s v = ⟨c.rows.set (s.toNat / 9)
          ((c.rows.getD (s.toNat / 9) []).set (s.toNat % 9) v)⟩ from by
        cases c; exact congrArg SingleChest.mk (set_item_rows _ _ _ h0 h1)]
      constructor
      · simpa using hc.1
      · intro row hrow
        rcases List.mem_or_eq_of_mem_set hrow with h2 | h2
        · exact hc.2 row h2
        · rw [h2]
          have hq : s.toNat / 9 < c.rows.length := by
            rw [hc.1]; omega
          rw [List.length_set]
          exact hc.2 _ (getD_mem _ _ _ hq)
    · rw [set_item_oob c s v (Or.inr (by omega))]; exact hc
  · rw [set_item_oob c s v (Or.inl (by omega))]; exact hc

lemma chest_set_sum (f : Option ItemStack → Int) (c : SingleChest) (hc : chestShape c)
    (s : Int) (hs0 : 0 ≤ s) (hs1 : s < 27) (v : Option ItemStack) :
    ((c.set_item s v).rows.map (fun row => (row.map f).sum)).sum + f (c.get_item s)
      = (c.rows.map (fun row => (row.map f).sum)).sum + f v := by
  have hq : s.toNat / 9 < c.rows.length := by rw [hc.1]; omega
  have hrowmem := getD_mem c.rows (s.toNat / 9) [] hq
  have hp : s.toNat % 9 < (c.rows.getD (s.toNat / 9) []).length := by
    rw [hc.2 _ hrowmem]; omega
  rw [set_item_rows c s v hs0 hs1, get_item_getD c s hs0 hs1]
  have houter := sum_map_set_getD (fun row => (row.map f).sum) c.rows (s.toNat / 9)
    ((c.rows.getD (s.toNat / 9) []).set (s.toNat % 9) v) [] hq
  have hinner := sum_map_set_getD f (c.rows.getD (s.toNat / 9) []) (s.toNat % 9) v none hp
  dsimp only at houter
  omega

lemma get_item_set_ne (c : SingleChest) (hc : chestShape c) (s t : Int)
    (hs0 : 0 ≤ s) (hs1 : s < 27) (v : Option ItemStack) (hne : s ≠ t) :
    (c.set_item s v).get_item t = c.get_item t := by
  rcases le_or_lt 0 t with ht0 | ht0
  · rcases lt_or_le t 27 with ht1 | ht1
    · have hrows := set_item_rows c s v hs0 hs1
      have hshape' := set_item_shape c s v hc
      rw [get_item_getD _ t ht0 ht1, get_item_getD c t ht0 ht1, hrows]
      rcases eq_or_ne (s.toNat / 9) (t.toNat / 9) with hq | hq
      · have hqlt : s.toNat / 9 < c.rows.length := by rw [hc.1]; omega
        rw [← hq, getD_set_eq _ _ _ _ hqlt]
        have hpne : s.toNat % 9 ≠ t.toNat % 9 := by omega
        rw [getD_set_ne _ _ _ _ _ hpne, hq]
      · rw [getD_set_ne _ _ _ _ _ hq]
    · unfold SingleChest.get_item SingleChest.get_slot
      rw [if_pos (Or.inr (by omega)), if_pos (Or.inr (by omega))]
  · unfold SingleChest.get_item SingleChest.get_slot
    rw [if_pos (Or.inl (by omega)), if_pos (Or.inl (by omega))]

lemma chest_set_count (c : SingleChest) (hc : chestShape c) (s : Int)
    (hs0 : 0 ≤ s) (hs1 : s < 27) (v : Option ItemStack) (i : Nat) :
    chestCount i (c.set_item s v) + optCount i (c.get_item s) =
      chestCount i c + optCount i v := by
  have := chest_set_sum (optCount i) c hc s hs0 hs1 v
  simpa [chestCount, rowCount] using this

lemma chest_set_total (c : SingleChest) (hc : chestShape c) (s : Int)
    (hs0 : 0 ≤ s) (hs1 : s < 27) (v : Option ItemStack) :
    chestTotal (c.set_item s v) + optTotal (c.get_item s) =
      chestTotal c + optTotal v := by
  have := chest_set_sum optTotal c hc s hs0 hs1 v
  simpa [chestTotal, rowTotal] using this

lemma chestOkItems_new : chestOkItems SingleChest.new := by
  intro row hrow o ho x hx
  rw [List.eq_of_mem_replicate hrow] at ho
  rw [List.eq_of_mem_replicate ho] at hx
  exact absurd hx (by simp)

lemma get_item_new (s : Int) (h0 : 0 ≤ s) (h1 : s < 27) :
    SingleChest.new.get_item s = none := by
  rw [get_item_getD _ s h0 h1]
  have hrow : SingleChest.new.rows.getD (s.toNat / 9) [] = List.replicate 9 none := by
    rw [List.getD_eq_getElem?_getD]
    show ((List.replicate 3 (List.replicate 9 none))[s.toNat / 9]?).getD [] = _
    rw [List.getElem?_replicate, if_pos (by omega)]
    rfl
  rw [hrow, List.getD_eq_getElem?_getD, List.getElem?_replicate, if_pos (by omega)]
  rfl

lemma set_item_ok (c : SingleChest) (hc : chestShape c) (hok : chestOkItems c)
    (s : Int) (v : Option ItemStack) (hv : ∀ x : ItemStack, v = some x → x.item < 12) :
    chestOkItems (c.set_item s v) := by
  rcases le_or_lt 0 s with h0 | h0
  · rcases lt_or_le s 27 with h1 | h1
    · have hrows := set_item_rows c s v h0 h1
      intro row hrow o ho x hx
      rw [hrows] at hrow
      rcases List.mem_or_eq_of_mem_set hrow with h2 | h2
      · exact hok row h2 o ho x hx
      · rw [h2] at ho
        rcases List.mem_or_eq_of_mem_set ho with h3 | h3
        · have hq : s.toNat / 9 < c.rows.length := by rw [hc.1]; omega
          exact hok _ (getD_mem _ _ _ hq) o h3 x hx
        · rw [h3] at hx
          exact hv x hx
    · rw [set_item_oob c s v (Or.inr (by omega))]; exact hok
  · rw [set_item_oob c s v (Or.inl (by omega))]; exact hok

lemma placeLoot_spec :
    ∀ (sts : List ItemStack) (slots : List Int) (c : SingleChest),
      chestShape c → chestOkItems c → slots.Nodup →
      (∀ s ∈ slots, 0 ≤ s ∧ s < 27 ∧ c.get_item s = none) →
      sts.length ≤ slots.length →
      (∀ x ∈ sts, x.item < 12) →
      chestShape (placeLoot c sts slots) ∧
      chestOkItems (placeLoot c sts slots) ∧
      (∀ i, chestCount i (placeLoot c sts slots) = chestCount i c + sumId i sts) ∧
      chestTotal (placeLoot c sts slots) = chestTotal c + totalCount sts := by
  intro sts
  induction sts with
  | nil =>
    intro slots c h1 h2 h3 h4 h5 h6
    simp only [placeLoot]
    exact ⟨h1, h2, fun i => by simp [sumId], by simp [totalCount]⟩
  | cons x rest ih =>
    intro slots c hsh hok hnd hslots hlen hitems
    rcases hlast : slots.getLast? with _ | slot
    · rw [List.getLast?_eq_none_iff] at hlast
      rw [hlast] at hlen
      simp at hlen
    · have hne : slots ≠ [] := by
        intro hc; rw [hc] at hlast; simp at hlast
      have hslotmem : slot ∈ slots := List.mem_of_mem_getLast? hlast
      obtain ⟨hs0, hs1, hsnone⟩ := hslots slot hslotmem
      have hlastv : slots.getLast hne = slot := by
        have hh := List.getLast?_eq_getLast slots hne
        rw [hlast] at hh
        exact (Option.some_inj.mp hh).symm
      have hnotin : slot ∉ slots.dropLast := by
        intro hmem
        have hsplit : slots.dropLast ++ [slots.getLast hne] = slots :=
          List.dropLast_append_getLast hne
        have hnd2 : (slots.dropLast ++ [slots.getLast hne]).Nodup := by
          rw [hsplit]; exact hnd
        exact List.disjoint_of_nodup_append hnd2 hmem (by rw [hlastv]; simp)
      simp only [placeLoot, hlast]
      have hsh' := set_item_shape c slot (if (x.count == 0) = true then none else some x) hsh
      have hok' : chestOkItems (c.set_item slot
          (if (x.count == 0) = true then none else some x)) := by
        refine set_item_ok c hsh hok slot _ (fun y hy => ?_)
        split at hy
        · exact Option.noConfusion hy
        · rw [← Option.some_inj.mp hy]
          exact hitems x (List.mem_cons_self _ _)
      have hnd' : slots.dropLast.Nodup := List.Nodup.sublist (List.dropLast_sublist slots) hnd
      have hslots' : ∀ s ∈ slots.dropLast, 0 ≤ s ∧ s < 27 ∧
          (c.set_item slot (if (x.count == 0) = true then none else some x)).get_item s
            = none := by
        intro s hs
        have hsmem : s ∈ slots := (List.dropLast_sublist slots).subset hs
        obtain ⟨h1, h2, h3⟩ := hslots s hsmem
        have hneq : slot ≠ s := by
          intro hc; rw [hc] at hnotin; exact hnotin hs
        exact ⟨h1, h2, by rw [get_item_set_ne c hsh slot s hs0 hs1 _ hneq]; exact h3⟩
      have hlen' : rest.length ≤ slots.dropLast.length := by
        rw [List.length_dropLast]
        simp only [List.length_cons] at hlen
        omega
      have hitems' : ∀ y ∈ rest, y.item < 12 :=
        fun y hy => hitems y (List.mem_cons_of_mem _ hy)
      obtain ⟨R1, R2, R3, R4⟩ := ih slots.dropLast _ hsh' hok' hnd' hslots' hlen' hitems'
      have hcnt := fun i => chest_set_count c hsh slot hs0 hs1
        (if (x.count == 0) = true then none else some x) i
      have htot := chest_set_total c hsh slot hs0 hs1
        (if (x.count == 0) = true then none else some x)
      rw [hsnone] at hcnt htot
      refine ⟨R1, R2, fun i => ?_, ?_⟩
      · rw [R3 i]
        have hv : optCount i (if (x.count == 0) = true then none else some x) =
            (if x.item = i then x.count else 0) := by
          rcases hbeq : (x.count == 0 : Bool)
          · simp only [hbeq, Bool.false_eq_true, if_false, optCount]
          · have hc0 : x.count = 0 := by simpa using hbeq
            simp only [hbeq, if_true, optCount, hc0]
            split <;> rfl
        have hci := hcnt i
        rw [hv] at hci
        simp only [optCount] at hci
        simp only [sumId]
        omega
      · rw [R4]
        have hv : optTotal (if (x.count == 0) = true then none else some x) = x.count := by
          rcases hbeq : (x.count == 0 : Bool)
          · simp only [hbeq, Bool.false_eq_true, if_false, optTotal]
          · have hc0 : x.count = 0 := by simpa using hbeq
            simp only [hbeq, if_true, optTotal, hc0]
        rw [hv] at htot
        simp only [optTotal] at htot
        simp only [totalCount]
        omega

/-! ## Free slots of the empty chest, and tally-context bookkeeping -/

lemma free_slots_new_spec (rng : JavaRandom) :
    (LootTable.get_free_slots SingleChest.new rng).1.Nodup ∧
    (LootTable.get_free_slots SingleChest.new rng).1.length = 27 ∧
    ∀ s ∈ (LootTable.get_free_slots SingleChest.new rng).1,
      0 ≤ s ∧ s < 27 ∧ SingleChest.new.get_item s = none := by
  have hfull : (((List.range 27).map (fun (s : Nat) => (s : Int))).filter
      (fun slot =>
        match SingleChest.new.get_item slot with
        | some items => items.count == 0
        | none => true)) = ((List.range 27).map (fun (s : Nat) => (s : Int))) := by decide
  unfold LootTable.get_free_slots
  rw [hfull]
  have hperm := shuffle_perm (((List.range 27).map (fun (s : Nat) => (s : Int)))) rng
  refine ⟨hperm.nodup_iff.mpr (by decide), by rw [hperm.length_eq]; rfl, fun s hs => ?_⟩
  have hsmem : s ∈ ((List.range 27).map (fun (s : Nat) => (s : Int))) := hperm.subset hs
  have hbound : ∀ t ∈ ((List.range 27).map (fun (s : Nat) => (s : Int))),
      0 ≤ t ∧ t < 27 := by decide
  obtain ⟨h1, h2⟩ := hbound s hsmem
  exact ⟨h1, h2, get_item_new s h1 h2⟩

lemma tallyCounts_spec (sts : List ItemStack) :
    ∀ arr : List Int, (∀ x ∈ sts, x.item < arr.length) →
      (tallyCounts arr sts).length = arr.length ∧
      ∀ i : Nat, (tallyCounts arr sts).getD i 0 = arr.getD i 0 + sumId i sts := by
  induction sts with
  | nil =>
    intro arr _
    exact ⟨rfl, fun i => by simp [tallyCounts, sumId]⟩
  | cons x xs ih =>
    intro arr h
    have hx : x.item < arr.length := h x (List.mem_cons_self _ _)
    have hstep : tallyCounts arr (x :: xs) =
        tallyCounts (arr.set x.item (arr.getD x.item 0 + x.count)) xs := rfl
    rw [hstep]
    obtain ⟨L, H⟩ := ih (arr.set x.item (arr.getD x.item 0 + x.count))
      (fun y hy => by rw [List.length_set]; exact h y (List.mem_cons_of_mem _ hy))
    refine ⟨by rw [L, List.length_set], fun i => ?_⟩
    rw [H i]
    simp only [sumId]
    rcases eq_or_ne x.item i with he | he
    · rw [← he, getD_set_eq _ _ _ _ hx, if_pos rfl]
      ring
    · rw [getD_set_ne _ _ _ _ _ he, if_neg he]
      ring

lemma foldl_tally_spec (rows : List (List ItemStack)) :
    ∀ arr : List Int, (∀ row ∈ rows, ∀ x ∈ row, x.item < arr.length) →
      (rows.foldl tallyCounts arr).length = arr.length ∧
      ∀ i : Nat, (rows.foldl tallyCounts arr).getD i 0 =
        arr.getD i 0 + ((rows.map (fun row => sumId i row)).sum) := by
  induction rows with
  | nil =>
    intro arr _
    exact ⟨rfl, fun i => by simp⟩
  | cons r rs ih =>
    intro arr h
    simp only [List.foldl_cons]
    obtain ⟨L1, H1⟩ := tallyCounts_spec r arr (h r (List.mem_cons_self _ _))
    obtain ⟨L2, H2⟩ := ih (tallyCounts arr r)
      (fun row hrow x hx => by rw [L1]; exact h row (List.mem_cons_of_mem _ hrow) x hx)
    refine ⟨by rw [L2, L1], fun i => ?_⟩
    rw [H2 i, H1 i]
    simp only [List.map_cons, List.sum_cons]
    ring

lemma rowCount_filterMap (i : Nat) (row : List (Option ItemStack)) :
    sumId i (row.filterMap id) = rowCount i row := by
  induction row with
  | nil => rfl
  | cons o os ih =>
    cases o with
    | none =>
      simp only [List.filterMap_cons, rowCount, List.map_cons, List.sum_cons] at *
      simpa [optCount] using ih
    | some x =>
      simp only [List.filterMap_cons, rowCount, List.map_cons, List.sum_cons] at *
      simp only [sumId, optCount]
      omega

lemma rowTotal_filterMap (row : List (Option ItemStack)) :
    totalCount (row.filterMap id) = rowTotal row := by
  induction row with
  | nil => rfl
  | cons o os ih =>
    cases o with
    | none =>
      simp only [List.filterMap_cons, rowTotal, List.map_cons, List.sum_cons] at *
      simpa [optTotal] using ih
    | some x =>
      simp only [List.filterMap_cons, rowTotal, List.map_cons, List.sum_cons] at *
      simp only [totalCount, optTotal]
      omega

lemma totalCount_eq_sum_map (l : List ItemStack) :
    totalCount l = (l.map (fun x => x.count)).sum := by
  induction l with
  | nil => rfl
  | cons x xs ih => simp only [totalCount, List.map_cons, List.sum_cons, ih]

lemma chest_tally (c : SingleChest) (i : Nat) :
    ((chestStacks c).map (fun row => sumId i row)).sum = chestCount i c := by
  unfold chestStacks chestCount
  rw [List.map_map]
  congr 1
  exact List.map_congr_left (fun row _ => rowCount_filterMap i row)

lemma chest_tally_total (c : SingleChest) :
    ((chestStacks c).map (fun row => (row.map (fun it => it.count)).sum)).sum
      = chestTotal c := by
  unfold chestStacks chestTotal
  rw [List.map_map]
  congr 1
  refine List.map_congr_left (fun row _ => ?_)
  show ((row.filterMap id).map (fun it => it.count)).sum = rowTotal row
  rw [← totalCount_eq_sum_map]
  exact rowTotal_filterMap row

lemma chestOk_stacks (c : SingleChest) (hok : chestOkItems c) :
    ∀ row ∈ chestStacks c, ∀ x ∈ row, x.item < 12 := by
  intro row hrow x hx
  obtain ⟨row0, hrow0, hfm⟩ := List.mem_map.mp hrow
  rw [← hfm] at hx
  obtain ⟨o, ho, hox⟩ := List.mem_filterMap.mp hx
  exact hok row0 hrow0 o ho x hox

lemma replicate12_getD (i : Nat) : (List.replicate 12 (0 : Int)).getD i 0 = 0 := by
  rw [List.getD_eq_getElem?_getD, List.getElem?_replicate]
  split <;> rfl

lemma build_ctx_spec (c : SingleChest) (hok : chestOkItems c) :
    (build_fast_inventory_compare_context c).items_count.length = 12 ∧
    (∀ i : Nat, (build_fast_inventory_compare_context c).items_count.getD i 0
      = chestCount i c) ∧
    (build_fast_inventory_compare_context c).total_items = chestTotal c ∧
    (build_fast_inventory_compare_context c).inventory = c := by
  obtain ⟨L, H⟩ := foldl_tally_spec (chestStacks c) (List.replicate 12 0)
    (fun row hrow x hx => by
      rw [List.length_replicate]
      exact chestOk_stacks c hok row hrow x hx)
  refine ⟨by simpa using L, fun i => ?_, ?_, rfl⟩
  · show ((chestStacks c).foldl tallyCounts (List.replicate 12 0)).getD i 0 = chestCount i c
    rw [H i, replicate12_getD, chest_tally]
    ring
  · exact chest_tally_total c

/-! ## The `compare_fast` callback replays generation -/

lemma divideList_append (a b : List ItemStack) :
    divideList (a ++ b) = divideList a ++ divideList b := by
  induction a with
  | nil => rfl
  | cons x xs ih => simp only [List.cons_append, divideList, List.append_eq, ih, List.append_assoc]

lemma callbackBody_ok (x : ItemStack) (st : CBState)
    (hstop : st.stop = false)
    (hitem : x.item < st.remCount.length)
    (hcnt : x.count ≤ st.remCount.getD x.item 0)
    (hit : x.count ≤ st.remItems) :
    callbackBody x st = some
      { remCount := st.remCount.set x.item (st.remCount.getD x.item 0 - x.count),
        remItems := st.remItems - x.count,
        loot := st.loot ++ divideOne x, stop := false, rng := st.rng } := by
  unfold callbackBody
  have hsome : st.remCount[x.item]? = some (st.remCount.getD x.item 0) := by
    rw [List.getElem?_eq_getElem hitem, List.getD_eq_getElem?_getD,
      List.getElem?_eq_getElem hitem]
    rfl
  simp only [hsome]
  rw [if_neg (by omega), if_neg (by omega), hstop]

lemma rollIterCB_ok (pool : LootPool) (luck : ℚ) :
    ∀ (n : Nat) (rng : JavaRandom) (items : List ItemStack) (r' : JavaRandom)
      (rc : List Int) (ri : Int) (lt : List ItemStack),
      poolRollsGo pool luck n rng = some (items, r') →
      (∀ x ∈ items, 0 ≤ x.count ∧ x.item < rc.length) →
      (∀ i : Nat, sumId i items ≤ rc.getD i 0) →
      totalCount items ≤ ri →
      ∃ rc', rollIterCB pool luck n ⟨rc, ri, lt, false, rng⟩ =
          some ⟨rc', ri - totalCount items, lt ++ divideList items, false, r'⟩ ∧
        rc'.length = rc.length ∧
        (∀ i : Nat, rc'.getD i 0 = rc.getD i 0 - sumId i items) := by
  intro n
  induction n with
  | zero =>
    intro rng items r' rc ri lt h hb hs ht
    simp only [poolRollsGo, Option.some_inj, Prod.mk.injEq] at h
    obtain ⟨h1, h2⟩ := h
    refine ⟨rc, ?_, rfl, fun i => ?_⟩
    · simp only [rollIterCB, ← h1, ← h2, divideList, totalCount]
      norm_num
    · rw [← h1]
      simp only [sumId]
      ring
  | succ n ih =>
    intro rng items r' rc ri lt h hb hs ht
    rw [poolRollsGo] at h
    rcases hse : pool.select_entry rng luck with _ | ⟨e, r1⟩ <;> simp only [hse] at h
    · exact Option.noConfusion h
    · rcases hrec : poolRollsGo pool luck n (e.generate_raw_loot r1).2 with _ | ⟨rest, r3⟩ <;>
        simp only [hrec] at h
      · exact Option.noConfusion h
      · simp only [Option.some_inj, Prod.mk.injEq] at h
        obtain ⟨h1, h2⟩ := h
        have hxmem : (e.generate_raw_loot r1).1 ∈ items := by
          rw [← h1]; exact List.mem_cons_self _ _
        obtain ⟨hx0, hxlt⟩ := hb _ hxmem
        have hrest0 : ∀ y ∈ rest, 0 ≤ y.count ∧ y.item < rc.length := by
          intro y hy
          exact hb y (by rw [← h1]; exact List.mem_cons_of_mem _ hy)
        have hsum_items : ∀ i, sumId i items =
            (if (e.generate_raw_loot r1).1.item = i then (e.generate_raw_loot r1).1.count
              else 0) + sumId i rest := by
          intro i; rw [← h1]; rfl
        have htot_items : totalCount items = (e.generate_raw_loot r1).1.count +
            totalCount rest := by
          rw [← h1]; rfl
        have hrestsum_nonneg : ∀ i, 0 ≤ sumId i rest :=
          fun i => sumId_nonneg i rest (fun y hy => (hrest0 y hy).1)
        have hresttot_nonneg : 0 ≤ totalCount rest :=
          totalCount_nonneg rest (fun y hy => (hrest0 y hy).1)
        have hcnt : (e.generate_raw_loot r1).1.count ≤
            rc.getD (e.generate_raw_loot r1).1.item 0 := by
          have := hs (e.generate_raw_loot r1).1.item
          rw [hsum_items (e.generate_raw_loot r1).1.item, if_pos rfl] at this
          have := hrestsum_nonneg (e.generate_raw_loot r1).1.item
          omega
        have hit : (e.generate_raw_loot r1).1.count ≤ ri := by
          rw [htot_items] at ht
          omega
        have hcb := callbackBody_ok (e.generate_raw_loot r1).1
          ⟨rc, ri, lt, false, (e.generate_raw_loot r1).2⟩ rfl hxlt hcnt hit
        obtain ⟨rc', hroll, hlen, hgd⟩ := ih (e.generate_raw_loot r1).2 rest r3
          (rc.set (e.generate_raw_loot r1).1.item
            (rc.getD (e.generate_raw_loot r1).1.item 0 - (e.generate_raw_loot r1).1.count))
          (ri - (e.generate_raw_loot r1).1.count) (lt ++ divideOne (e.generate_raw_loot r1).1)
          hrec
          (by
            intro y hy
            rw [List.length_set]
            exact hrest0 y hy)
          (by
            intro i
            have hsi := hs i
            rw [hsum_items i] at hsi
            rcases eq_or_ne (e.generate_raw_loot r1).1.item i with he | he
            · rw [← he, getD_set_eq _ _ _ _ hxlt]
              rw [← he, if_pos rfl] at hsi
              omega
            · rw [getD_set_ne _ _ _ _ _ he]
              rw [if_neg he] at hsi
              omega)
          (by
            rw [htot_items] at ht
            omega)
        refine ⟨rc', ?_, by rw [hlen, List.length_set], fun i => ?_⟩
        · rw [rollIterCB]
          simp only [hse, hcb, hroll]
          rw [← h1, ← h2]
          simp only [Bool.false_eq_true, if_false, totalCount, divideList,
            List.append_assoc, Option.some_inj, CBState.mk.injEq]
          and_intros <;> first | rfl | ring
        · rw [hgd i, hsum_items i]
          rcases eq_or_ne (e.generate_raw_loot r1).1.item i with he | he
          · rw [← he, getD_set_eq _ _ _ _ hxlt, if_pos rfl]
            ring
          · rw [getD_set_ne _ _ _ _ _ he, if_neg he]
            ring

lemma tableCallbackCB_ok (luck : ℚ) :
    ∀ (pools : List LootPool) (rng : JavaRandom) (raw : List ItemStack) (r' : JavaRandom)
      (rc : List Int) (ri : Int) (lt : List ItemStack),
      tableRawGo luck pools rng = some (raw, r') →
      (∀ x ∈ raw, 0 ≤ x.count ∧ x.item < rc.length) →
      (∀ i : Nat, sumId i raw ≤ rc.getD i 0) →
      totalCount raw ≤ ri →
      ∃ rc', tableCallbackCB luck pools ⟨rc, ri, lt, false, rng⟩ =
          some ⟨rc', ri - totalCount raw, lt ++ divideList raw, false, r'⟩ := by
  intro pools
  induction pools with
  | nil =>
    intro rng raw r' rc ri lt h hb hs ht
    simp only [tableRawGo, Option.some_inj, Prod.mk.injEq] at h
    obtain ⟨h1, h2⟩ := h
    refine ⟨rc, ?_⟩
    simp only [tableCallbackCB, ← h1, ← h2, divideList, totalCount]
    norm_num
  | cons p ps ih =>
    intro rng raw r' rc ri lt h hb hs ht
    rw [tableRawGo] at h
    rcases hpg : p.generate_raw_loot rng luck with _ | ⟨items, r1⟩ <;> simp only [hpg] at h
    · exact Option.noConfusion h
    · rcases hrec : tableRawGo luck ps r1 with _ | ⟨rest, r2⟩ <;> simp only [hrec] at h
      · exact Option.noConfusion h
      · simp only [Option.some_inj, Prod.mk.injEq] at h
        obtain ⟨h1, h2⟩ := h
        have hitems_sub : ∀ x ∈ items, x ∈ raw := by
          intro x hx; rw [← h1]; exact List.mem_append.mpr (Or.inl hx)
        have hrest_sub : ∀ x ∈ rest, x ∈ raw := by
          intro x hx; rw [← h1]; exact List.mem_append.mpr (Or.inr hx)
        have hsum_raw : ∀ i, sumId i raw = sumId i items + sumId i rest := by
          intro i; rw [← h1, sumId_append]
        have htot_raw : totalCount raw = totalCount items + totalCount rest := by
          rw [← h1, totalCount_append]
        have hrestsum_nonneg : ∀ i, 0 ≤ sumId i rest :=
          fun i => sumId_nonneg i rest (fun y hy => (hb y (hrest_sub y hy)).1)
        have hitemsum_nonneg : ∀ i, 0 ≤ sumId i items :=
          fun i => sumId_nonneg i items (fun y hy => (hb y (hitems_sub y hy)).1)
        have hresttot_nonneg : 0 ≤ totalCount rest :=
          totalCount_nonneg rest (fun y hy => (hb y (hrest_sub y hy)).1)
        unfold LootPool.generate_raw_loot at hpg
        obtain ⟨rc1, hroll, hlen1, hgd1⟩ := rollIterCB_ok p luck _ _ _ _ rc ri lt hpg
          (fun x hx => hb x (hitems_sub x hx))
          (fun i => by
            have hsi := hs i
            rw [hsum_raw i] at hsi
            have hrn := hrestsum_nonneg i
            omega)
          (by rw [htot_raw] at ht; omega)
        obtain ⟨rc', htab⟩ := ih r1 rest r2 rc1 (ri - totalCount items)
          (lt ++ divideList items) hrec
          (fun x hx => ⟨(hb x (hrest_sub x hx)).1, by
            rw [hlen1]; exact (hb x (hrest_sub x hx)).2⟩)
          (fun i => by
            rw [hgd1 i]
            have := hs i
            rw [hsum_raw i] at this
            omega)
          (by rw [htot_raw] at ht; omega)
        refine ⟨rc', ?_⟩
        rw [tableCallbackCB]
        simp only [Bool.false_eq_true, if_false]
        have hpcb : poolCallbackCB p luck ⟨rc, ri, lt, false, rng⟩ =
            rollIterCB p luck (((p.rolls.apply rng).1).toNat)
              ⟨rc, ri, lt, false, (p.rolls.apply rng).2⟩ := rfl
        rw [hpcb]
        simp only [hroll]
        rw [htab, ← h1, ← h2]
        simp only [Option.some_inj, CBState.mk.injEq]
        and_intros <;>
            simp only [totalCount_append, divideList_append, List.append_assoc] <;>
          first
          | rfl
          | ring

lemma generate_in_inventory_inv (t : LootTable) (inv : SingleChest) (rng : JavaRandom)
    (luck : ℚ) (chest : SingleChest)
    (h : t.generate_in_inventory inv rng luck = some chest) :
    ∃ raw r1 loot2 r3,
      t.generate_raw_loot rng luck = some (raw, r1) ∧
      LootTable.shuffle_loot (divideList raw)
        (LootTable.get_free_slots inv r1).1.length
        (LootTable.get_free_slots inv r1).2 = some (loot2, r3) ∧
      placeLoot inv loot2 (LootTable.get_free_slots inv r1).1 = chest := by
  unfold LootTable.generate_in_inventory at h
  rcases hraw : t.generate_raw_loot rng luck with _ | ⟨raw, r1⟩ <;> simp only [hraw] at h
  · exact Option.noConfusion h
  · rcases hsl : LootTable.shuffle_loot (divideList raw)
        (LootTable.get_free_slots inv r1).1.length
        (LootTable.get_free_slots inv r1).2 with _ | ⟨loot2, r3⟩ <;> simp only [hsl] at h
    · exact Option.noConfusion h
    · exact ⟨raw, r1, loot2, r3, rfl, hsl, Option.some_inj.mp h⟩

lemma compare_fast_true (t : LootTable) (rng : JavaRandom) (luck : ℚ)
    (ctx : FastInventoryCompareContext) (st : CBState)
    (l2 : List ItemStack) (r3 : JavaRandom)
    (hst : tableCallbackCB luck t.pools
      ⟨ctx.items_count, ctx.total_items, [], false, rng⟩ = some st)
    (hstop : st.stop = false)
    (hsl : LootTable.shuffle_loot st.loot
      (LootTable.get_free_slots SingleChest.new st.rng).1.length
      (LootTable.get_free_slots SingleChest.new st.rng).2 = some (l2, r3))
    (hinv : placeLoot SingleChest.new l2
      (LootTable.get_free_slots SingleChest.new st.rng).1 = ctx.inventory) :
    t.compare_fast rng luck ctx = some true := by
  unfold LootTable.compare_fast
  simp only [hst, hstop, Bool.false_eq_true, if_false, hsl, hinv]
  simp

lemma chestCount_new (i : Nat) : chestCount i SingleChest.new = 0 := by
  show ((List.replicate 3 (List.replicate 9 none)).map (rowCount i)).sum = 0
  simp [rowCount, optCount, List.map_replicate, List.sum_replicate]

lemma chestTotal_new : chestTotal SingleChest.new = 0 := by
  show ((List.replicate 3 (List.replicate 9 none)).map rowTotal).sum = 0
  simp [rowTotal, optTotal, List.map_replicate, List.sum_replicate]

/-- C5: fast-compare round-trip soundness.  For every world seed, chunk
position, and luck value, if `get_buried_treasure` produces a chest, then
building a `FastInventoryCompareContext` from that chest and running
`compare_buried_treasure_fast` for the same world seed, chunk position, and
luck returns `some true`.  The compare path replays the same PRNG stream, the
context tallies built from the placed chest equal the per-item sums of the
raw loot (placement into distinct empty slots, splitting, and shuffling all
preserve item counts), so the callback never trips the early-stop, and the
final shuffle-and-place is the identical deterministic computation that built
the chest. -/
theorem fast_compare_roundtrip (world_seed : Int) (chunk : Int × Int) (luck : ℚ)
    (chest : SingleChest)
    (h : get_buried_treasure world_seed chunk luck = some chest) :
    compare_buried_treasure_fast world_seed chunk luck
      (build_fast_inventory_compare_context chest) = some true := by
  obtain ⟨raw, r1, loot2, r3, hraw, hsl, h2⟩ :=
    generate_in_inventory_inv get_loot_table SingleChest.new
      (JavaRandom.new (get_buried_treasure_loot_table_seed world_seed chunk)) luck chest h
  have hgoodtab : ∀ pool ∈ get_loot_table.pools, ∀ e ∈ pool.entries,
      goodEntryB e = true := by decide
  have hraw' : tableRawGo luck get_loot_table.pools
      (JavaRandom.new (get_buried_treasure_loot_table_seed world_seed chunk))
      = some (raw, r1) := hraw
  obtain ⟨hgood, hrawlen⟩ := tableRawGo_spec luck get_loot_table.pools _ _ _ hgoodtab hraw'
  have hrollsum : ((get_loot_table.pools.map (fun p => max (rollsMax p.rolls) 0)).sum)
      = 15 := by decide
  have hrawlen15 : raw.length ≤ 15 := by
    rw [hrollsum] at hrawlen
    exact_mod_cast hrawlen
  have hdiv : divideList raw = raw := divideList_eq raw (fun x hx => (hgood x hx).2.1)
  obtain ⟨hnd, hslen, hsl_all⟩ := free_slots_new_spec r1
  obtain ⟨hs2, ht2, hl2, hm2⟩ := shuffle_loot_spec (divideList raw) _ _ _ _ hsl
  have hlo_len : loot2.length ≤ (LootTable.get_free_slots SingleChest.new r1).1.length := by
    rw [hslen]
    have hdl : (divideList raw).length ≤ 15 := by rw [hdiv]; exact hrawlen15
    rw [hslen] at hl2
    omega
  have hlo_items : ∀ x ∈ loot2, x.item < 12 := by
    intro x hx
    obtain ⟨y, hy, hxy⟩ := hm2 x hx
    rw [hdiv] at hy
    rw [hxy]
    exact (hgood y hy).2.2.2
  obtain ⟨Psh, Pok, Pcnt, Ptot⟩ := placeLoot_spec loot2
    (LootTable.get_free_slots SingleChest.new r1).1 SingleChest.new
    chestShape_new chestOkItems_new hnd hsl_all hlo_len hlo_items
  have hchest_ok : chestOkItems chest := h2 ▸ Pok
  obtain ⟨CL, CC, CT, CI⟩ := build_ctx_spec chest hchest_ok
  have hctx_cnt : ∀ i : Nat,
      (build_fast_inventory_compare_context chest).items_count.getD i 0 = sumId i raw := by
    intro i
    rw [CC i, ← h2, Pcnt i, chestCount_new]
    have hsd := hs2 i
    rw [hdiv] at hsd
    omega
  have hctx_tot : (build_fast_inventory_compare_context chest).total_items
      = totalCount raw := by
    rw [CT, ← h2, Ptot, chestTotal_new]
    rw [hdiv] at ht2
    omega
  obtain ⟨rc', hcb⟩ := tableCallbackCB_ok luck get_loot_table.pools
    (JavaRandom.new (get_buried_treasure_loot_table_seed world_seed chunk)) raw r1
    (build_fast_inventory_compare_context chest).items_count
    (build_fast_inventory_compare_context chest).total_items [] hraw'
    (fun x hx => ⟨(hgood x hx).1, by rw [CL]; exact (hgood x hx).2.2.2⟩)
    (fun i => le_of_eq (hctx_cnt i).symm)
    (le_of_eq hctx_tot.symm)
  exact compare_fast_true get_loot_table
    (JavaRandom.new (get_buried_treasure_loot_table_seed world_seed chunk)) luck
    (build_fast_inventory_compare_context chest) _ loot2 r3 hcb rfl hsl
    (by rw [CI]; exact h2)

/-! ## The `luck = 0` specialization evaluates the pipeline -/

lemma get_weight_zero (e : ItemLootPoolEntry) : e.get_weight 0 = get_weightZ e := by
  unfold ItemLootPoolEntry.get_weight get_weightZ
  rw [mul_zero, Int.floor_zero]
  norm_num [satI32]

lemma buildTotals_zero (entries : List ItemLootPoolEntry) :
    ∀ acc, buildTotals entries 0 acc = buildTotalsZ entries acc := by
  induction entries with
  | nil => intro acc; rfl
  | cons e rest ih =>
    intro acc
    simp only [buildTotals, buildTotalsZ, get_weight_zero, ih]

lemma totalWeight_zero (entries : List ItemLootPoolEntry) :
    totalWeight entries 0 = totalWeightZ entries := by
  unfold totalWeight totalWeightZ
  induction entries with
  | nil => rfl
  | cons e rest ih =>
    simp only [List.map_cons, List.sum_cons, get_weight_zero, ih]

lemma select_entry_zero (pool : LootPool) (rng : JavaRandom) :
    pool.select_entry rng 0 = select_entryZ pool rng := by
  rcases hes : pool.entries with _ | ⟨e1, _ | ⟨e2, rest⟩⟩ <;>
    simp only [LootPool.select_entry, select_entryZ, hes, buildTotals_zero,
      totalWeight_zero]

lemma poolRollsGo_zero (pool : LootPool) :
    ∀ n rng, poolRollsGo pool 0 n rng = poolRollsGoZ pool n rng := by
  intro n
  induction n with
  | zero => intro rng; rfl
  | succ n ih =>
    intro rng
    simp only [poolRollsGo, poolRollsGoZ, select_entry_zero, ih]

lemma tableRawGo_zero :
    ∀ (pools : List LootPool) (rng : JavaRandom),
      tableRawGo 0 pools rng = tableRawGoZ pools rng := by
  intro pools
  induction pools with
  | nil => intro rng; rfl
  | cons p ps ih =>
    intro rng
    simp only [tableRawGo, tableRawGoZ, LootPool.generate_raw_loot, poolRollsGo_zero, ih]

lemma generate_in_inventory_zero (t : LootTable) (inv : SingleChest) (rng : JavaRandom) :
    t.generate_in_inventory inv rng 0 = generate_in_inventoryZ t inv rng := by
  unfold LootTable.generate_in_inventory generate_in_inventoryZ
  simp only [LootTable.generate_raw_loot, tableRawGo_zero]

lemma get_buried_treasure_zero (world_seed : Int) (chunk : Int × Int) :
    get_buried_treasure world_seed chunk 0 = get_buried_treasureZ world_seed chunk := by
  unfold get_buried_treasure get_buried_treasureZ
  exact generate_in_inventory_zero _ _ _

set_option maxRecDepth 20000 in
/-- Witness: the round-trip at world seed 0, chunk `(0, 0)`, luck 0, whose
generated chest is `witnessChest`. -/
theorem fast_compare_roundtrip_witness :
    get_buried_treasure 0 (0, 0) 0 = some witnessChest ∧
    compare_buried_treasure_fast 0 (0, 0) 0
      (build_fast_inventory_compare_context witnessChest) = some true :=
  ⟨by rw [get_buried_treasure_zero]; decide,
   fast_compare_roundtrip 0 (0, 0) 0 witnessChest
     (by rw [get_buried_treasure_zero]; decide)⟩
